import Mathlib

/-!
Shallow embedding of `src/nupic/experimental/GridUniqueness.cpp`.

Doubles are modelled as exact rationals (`ℚ`); `std::numeric_limits<double>::max()`
is the exact rational value of the largest finite IEEE-754 double,
`(2^53 - 1) * 2^971`.  The lazy enumerator classes (`LatticePointEnumerator`,
`HyperrectangleVertexEnumerator`) are modelled by the lists of points they emit,
in emission order.  The recursive searcher `findGridCodeZeroHelper`, whose C++
recursion has no structural measure, is indexed by fuel (`none` = fuel ran out);
its in-place mutation of `x0`/`dims` via `SwapValueRAII` is modelled by
threading the two arrays through the result, applying exactly the writes and
destructor-restores the C++ performs.
-/

namespace GridUniqueness

/-- A 2-D point / vector on a module's phase plane (`std::pair<double,double>`). -/
abbrev Vec2 := ℚ × ℚ

/-- A 2×2 matrix, as its two rows (`vector<vector<double>>` with two rows of two). -/
abbrev Mat2 := (ℚ × ℚ) × (ℚ × ℚ)

/-- A 2×N matrix, as its two rows (`vector<vector<double>>` with two rows). -/
abbrev Mat2N := List ℚ × List ℚ

/-- `transform2D`: 2×2 matrix times 2-vector. -/
def transform2D (M : Mat2) (p : Vec2) : Vec2 :=
  (M.1.1 * p.1 + M.1.2 * p.2, M.2.1 * p.1 + M.2.2 * p.2)

/-- `invert2DMatrix`: adjugate over determinant (in ℚ; `1/0 = 0` stands in for
the C++ infinity in the precondition-violating singular case). -/
def invert2DMatrix (M : Mat2) : Mat2 :=
  let detInv := 1 / (M.1.1 * M.2.2 - M.1.2 * M.2.1)
  ((detInv * M.2.2, -detInv * M.1.2), (-detInv * M.2.1, detInv * M.1.1))

/-- Dot product of two coefficient lists, truncating at the shorter
(the C++ loops over `M[row].size()` entries of `p`). -/
def dotProd (a b : List ℚ) : ℚ := (List.zipWith (· * ·) a b).sum

/-- `transformND`: 2×N matrix times N-vector. -/
def transformND (M : Mat2N) (p : List ℚ) : Vec2 := (dotProd M.1 p, dotProd M.2 p)

/-- Matrix product of two 2×2 matrices (used to state "is the inverse of"). -/
def mat2Mul (A B : Mat2) : Mat2 :=
  ((A.1.1 * B.1.1 + A.1.2 * B.2.1, A.1.1 * B.1.2 + A.1.2 * B.2.2),
   (A.2.1 * B.1.1 + A.2.2 * B.2.1, A.2.1 * B.1.2 + A.2.2 * B.2.2))

/-- The 2×2 identity matrix. -/
def mat2Id : Mat2 := ((1, 0), (0, 1))

/-- 2×2 determinant. -/
def det2 (M : Mat2) : ℚ := M.1.1 * M.2.2 - M.1.2 * M.2.1

/-- Exact value of `std::numeric_limits<double>::max()`. -/
def DBL_MAX : ℚ := (2 ^ 53 - 1) * 2 ^ 971

/-- Exact value of `std::numeric_limits<double>::lowest()`. -/
def DBL_LOWEST : ℚ := -DBL_MAX

/-- Squared Euclidean distance between two plane points, as computed by
`pow(a.first - b.first, 2) + pow(a.second - b.second, 2)`. -/
def distSq (p q : Vec2) : ℚ := (p.1 - q.1) ^ 2 + (p.2 - q.2) ^ 2

/-- Axis-aligned bounding box `((xmin, xmax), (ymin, ymax))` of a list of plane
points, folded from the `DBL_MAX` / `lowest()` initial values exactly as the
C++ `updateBoundingBox_` / vertex loops do. -/
def boundingBox (ps : List Vec2) : (ℚ × ℚ) × (ℚ × ℚ) :=
  (((ps.map Prod.fst).foldl min DBL_MAX, (ps.map Prod.fst).foldl max DBL_LOWEST),
   ((ps.map Prod.snd).foldl min DBL_MAX, (ps.map Prod.snd).foldl max DBL_LOWEST))

/-- The four corners of the rectangle `[x0, x0+width] × [y0, y0+height]`, in the
order the `LatticePointEnumerator` constructor visits them. -/
def rectCorners (x0 y0 width height : ℚ) : List Vec2 :=
  [(x0, y0), (x0 + width, y0), (x0, y0 + height), (x0 + width, y0 + height)]

/-- The integers from `lo` to `hi` inclusive (empty when `hi < lo`). -/
def intRange (lo hi : ℤ) : List ℤ :=
  (List.range (hi + 1 - lo).toNat).map fun (k : ℕ) => lo + (k : ℤ)

/-- Membership test of a plane point in `[x0, x0+width] × [y0, y0+height]`,
the filter in `LatticePointEnumerator::getNext`. -/
def inRect (x0 y0 width height : ℚ) (p : Vec2) : Bool :=
  decide (x0 ≤ p.1 ∧ p.1 ≤ x0 + width ∧ y0 ≤ p.2 ∧ p.2 ≤ y0 + height)

/-- `LatticePointEnumerator`, as the list of points it emits: transform the
four corners of the query rectangle by the inverse basis, round the bounding
box in lattice coordinates to the enclosed integer grid, map each integer pair
back through the basis, and keep those inside the query rectangle.  Emission
order is `i` outer / `j` inner, as in `getNext`. -/
def latticePoints (latticeBasis inverseLatticeBasis : Mat2)
    (x0 y0 width height : ℚ) : List Vec2 :=
  let bb := boundingBox ((rectCorners x0 y0 width height).map (transform2D inverseLatticeBasis))
  let imin : ℤ := ⌈bb.1.1⌉
  let imax : ℤ := ⌊bb.1.2⌋
  let jmin : ℤ := ⌈bb.2.1⌉
  let jmax : ℤ := ⌊bb.2.2⌋
  ((intRange imin imax).flatMap fun (i : ℤ) =>
    (intRange jmin jmax).map fun (j : ℤ) =>
      transform2D latticeBasis (((i : ℤ) : ℚ), ((j : ℤ) : ℚ))).filter
    (inRect x0 y0 width height)

/-- The lattice point `L·(i, j)`. -/
def latticePointAt (latticeBasis : Mat2) (i j : ℤ) : Vec2 :=
  transform2D latticeBasis ((i : ℚ), (j : ℚ))

/-- Corner number `bitvector` of the hyperrectangle `(x0, dims)`:
entry `bit` is `x0[bit]`, plus `dims[bit]` when bit `bit` of `bitvector` is set. -/
def vertexOf (numDims : ℕ) (x0 dims : List ℚ) (bitvector : ℕ) : List ℚ :=
  (List.range numDims).map fun bit =>
    x0.getD bit 0 + if bitvector.testBit bit then dims.getD bit 0 else 0

/-- `HyperrectangleVertexEnumerator`, as the list of the `2^numDims` corners it
emits, in increasing bitmask order. -/
def hyperrectangleVertices (numDims : ℕ) (x0 dims : List ℚ) : List (List ℚ) :=
  (List.range (2 ^ numDims)).map (vertexOf numDims x0 dims)

/-- One module's geometry.  The C++ passes three parallel vectors
(`domainToPlaneByModule`, `latticeBasisByModule`, `inverseLatticeBasisByModule`);
here the per-module entries are bundled. -/
structure GridModule where
  domainToPlane : Mat2N
  latticeBasis : Mat2
  inverseLatticeBasis : Mat2

/-- The slack added to `readoutResolution/2` in `tryFindGridCodeZero`
(the C++ literal `0.000000001`). -/
def epsSlack : ℚ := 1 / 1000000000

/-- Inner loop of `tryFindGridCodeZero` for one module: does some enumerated
lattice point lie within squared distance `r²` of the vertex's image? -/
def vertexHasZeroInModule (M : GridModule) (readoutResolution : ℚ) (v : List ℚ) : Bool :=
  let r := readoutResolution / 2 + epsSlack
  let pointOnPlane := transformND M.domainToPlane v
  (latticePoints M.latticeBasis M.inverseLatticeBasis
      (pointOnPlane.1 - r) (pointOnPlane.2 - r) (2 * r) (2 * r)).any
    fun latticePoint => decide (distSq latticePoint pointOnPlane ≤ r ^ 2)

/-- A vertex is not "disqualified" in `tryFindGridCodeZero` iff every module
has a nearby lattice point. -/
def vertexIsZero (modules : List GridModule) (readoutResolution : ℚ) (v : List ℚ) : Bool :=
  modules.all fun M => vertexHasZeroInModule M readoutResolution v

/-- `tryFindGridCodeZero`: the C++ returns `true` leaving the first
non-disqualified vertex in `vertexBuffer`; this is modelled by returning that
vertex (`none` = the C++ `false`). -/
def tryFindGridCodeZero (modules : List GridModule) (numDims : ℕ)
    (x0 dims : List ℚ) (readoutResolution : ℚ) : Option (List ℚ) :=
  (hyperrectangleVertices numDims x0 dims).find? (vertexIsZero modules readoutResolution)

/-- The point of the bbox nearest to a lattice point, computed by the
`nearestX` / `nearestY` clamps in `tryProveGridCodeZeroImpossible`. -/
def nearestBBoxPoint (xmin xmax ymin ymax : ℚ) (latticePoint : Vec2) : Vec2 :=
  (max xmin (min latticePoint.1 xmax), max ymin (min latticePoint.2 ymax))

/-- The collision test inside `tryProveGridCodeZeroImpossible`: clamp the
lattice point to the bbox and compare the squared distance strictly against
`r²`. -/
def latticeCollision (r xmin xmax ymin ymax : ℚ) (latticePoint : Vec2) : Bool :=
  decide (distSq latticePoint (nearestBBoxPoint xmin xmax ymin ymax latticePoint) < r ^ 2)

/-- One module's pass of `tryProveGridCodeZeroImpossible`: bounding box of the
vertex images, then search the expanded rectangle for a lattice collision;
the module excludes grid code zero when no collision is found. -/
def moduleExcludesGridCodeZero (M : GridModule) (numDims : ℕ)
    (x0 dims : List ℚ) (readoutResolution : ℚ) : Bool :=
  let bb := boundingBox ((hyperrectangleVertices numDims x0 dims).map (transformND M.domainToPlane))
  let xmin := bb.1.1
  let xmax := bb.1.2
  let ymin := bb.2.1
  let ymax := bb.2.2
  let r := readoutResolution / 2
  !((latticePoints M.latticeBasis M.inverseLatticeBasis
       (xmin - r) (ymin - r) (xmax - xmin + 2 * r) (ymax - ymin + 2 * r)).any
      (latticeCollision r xmin xmax ymin ymax))

/-- `tryProveGridCodeZeroImpossible`: true iff some module excludes grid code
zero on this hyperrectangle. -/
def tryProveGridCodeZeroImpossible (modules : List GridModule) (numDims : ℕ)
    (x0 dims : List ℚ) (readoutResolution : ℚ) : Bool :=
  modules.any fun M => moduleExcludesGridCodeZero M numDims x0 dims readoutResolution

/-- `std::max_element(dims, dims + numDims)`: index of the first maximum
(0 on the empty list). -/
def widestDimIndex : List ℚ → ℕ
  | [] => 0
  | [_] => 0
  | d :: e :: rest =>
    if d < (e :: rest).foldl max e then widestDimIndex (e :: rest) + 1 else 0

/-- `findGridCodeZeroHelper`, fuel-indexed.  The result is `none` when fuel ran
out, otherwise `some (witness?, x0', dims')` where `witness?` is the vertex
found by the successful `tryFindGridCodeZero` (the C++ `true` return with the
witness in `vertexBuffer`) and `x0'`, `dims'` are the contents of the two
caller-owned arrays at return, including every `SwapValueRAII` write and
destructor restore. -/
def findGridCodeZeroHelper (modules : List GridModule) (numDims : ℕ)
    (readoutResolution : ℚ) (shouldContinue : Bool) :
    ℕ → List ℚ → List ℚ → Option (Option (List ℚ) × List ℚ × List ℚ)
  | 0, _, _ => none
  | fuel + 1, x0, dims =>
    if !shouldContinue then some (none, x0, dims)
    else
      match tryFindGridCodeZero modules numDims x0 dims readoutResolution with
      | some v => some (some v, x0, dims)
      | none =>
        if tryProveGridCodeZeroImpossible modules numDims x0 dims readoutResolution then
          some (none, x0, dims)
        else
          let iWidestDim := widestDimIndex dims
          let d0 := dims.getD iWidestDim 0
          let dimsHalved := dims.set iWidestDim (d0 / 2)
          match findGridCodeZeroHelper modules numDims readoutResolution shouldContinue
              fuel x0 dimsHalved with
          | none => none
          | some (some v, x0r, dimsr) => some (some v, x0r, dimsr.set iWidestDim d0)
          | some (none, x0r, dimsr) =>
            let x0w := x0r.getD iWidestDim 0
            let x0Shifted := x0r.set iWidestDim (x0w + dimsr.getD iWidestDim 0)
            match findGridCodeZeroHelper modules numDims readoutResolution shouldContinue
                fuel x0Shifted dimsr with
            | none => none
            | some (res, x0rr, dimsrr) =>
              some (res, x0rr.set iWidestDim x0w, dimsrr.set iWidestDim d0)

/-- Bundle the three per-module inputs of the public entry points, computing
each `inverseLatticeBasis` with `invert2DMatrix` as both entry points do. -/
def buildModules (domainToPlaneByModule : List Mat2N)
    (latticeBasisByModule : List Mat2) : List GridModule :=
  List.zipWith (fun dp lb => GridModule.mk dp lb (invert2DMatrix lb))
    domainToPlaneByModule latticeBasisByModule

/-- Public `findGridCodeZero`, fuel-indexed: copies of `x0`/`dims` are passed
to the helper (the caller's vectors are values here, so the copies are
implicit), `shouldContinue` is the trivially-true local atomic.  Returns
`some (found, witness?)`, or `none` when the fuel ran out. -/
def findGridCodeZero (domainToPlaneByModule : List Mat2N)
    (latticeBasisByModule : List Mat2) (x0 dims : List ℚ)
    (readoutResolution : ℚ) (fuel : ℕ) : Option (Bool × Option (List ℚ)) :=
  let modules := buildModules domainToPlaneByModule latticeBasisByModule
  match findGridCodeZeroHelper modules dims.length readoutResolution true fuel x0 dims with
  | none => none
  | some (w, _, _) => some (w.isSome, w)

/-- The mutable fields of `GridUniquenessState` (the immutable module geometry,
resolution and `numDims` are carried alongside; thread plumbing
(`mutex`, `finished`, `numActiveThreads`, `threadRunning`) is outside the
state-machine model). -/
structure SchedulerState where
  numDims : ℕ
  baselineRadius : ℚ
  expansionRadiusGoal : ℚ
  expansionProgress : List ℚ
  expandingDim : ℕ
  positiveExpand : Bool
  continueExpansion : Bool
  pointWithGridCodeZero : List ℚ
  foundPointBaselineRadius : ℚ
  threadBaselineRadius : List ℚ
  threadQueryX0 : List (List ℚ)
  threadQueryDims : List (List ℚ)
  threadShouldContinue : List Bool
  deriving Repr, DecidableEq

/-- `recordResult`: clear `continueExpansion`; when the recording worker's
baseline beats the best so far, install its witness and clear
`threadShouldContinue` of every other worker whose baseline is not below the
new best. -/
def recordResult (iThread : ℕ) (state : SchedulerState)
    (pointWithGridCodeZero : List ℚ) : SchedulerState :=
  let state1 := { state with continueExpansion := false }
  if state.threadBaselineRadius.getD iThread 0 < state.foundPointBaselineRadius then
    let newBest := state.threadBaselineRadius.getD iThread 0
    { state1 with
      foundPointBaselineRadius := newBest
      pointWithGridCodeZero := pointWithGridCodeZero
      threadShouldContinue := state.threadShouldContinue.mapIdx fun iOtherThread c =>
        if iOtherThread ≠ iThread ∧ c = true ∧
            state.threadBaselineRadius.getD iOtherThread 0 ≥ newBest then false else c }
  else state1

/-- `claimNextTask`: snapshot the baseline into the worker's
`threadBaselineRadius`, build the slab query for the current
`(expandingDim, positiveExpand)`, store it in the worker's query buffers, and
advance the expansion bookkeeping. -/
def claimNextTask (iThread : ℕ) (state : SchedulerState) : SchedulerState :=
  let n := state.numDims
  -- All but the final dimension span the probed extent; the final dimension
  -- keeps only its positive half (antipodal-symmetry optimization).
  let dimsBase := (List.range n).map fun iDim =>
    if iDim + 1 = n then state.expansionProgress.getD iDim 0
    else 2 * state.expansionProgress.getD iDim 0
  let x0Base := (List.range n).map fun iDim =>
    if iDim + 1 = n then 0 else -state.expansionProgress.getD iDim 0
  -- Changes specific to this query.
  let dims := dimsBase.set state.expandingDim
    (state.expansionRadiusGoal - state.baselineRadius)
  let x0 := x0Base.set state.expandingDim
    (if state.positiveExpand then state.baselineRadius else -state.expansionRadiusGoal)
  let state1 := { state with
    threadBaselineRadius := state.threadBaselineRadius.set iThread state.baselineRadius
    threadQueryX0 := state.threadQueryX0.set iThread x0
    threadQueryDims := state.threadQueryDims.set iThread dims }
  -- Update.
  if state.positiveExpand ∧ state.expandingDim < n - 1 then
    { state1 with positiveExpand := false }
  else
    let progress := state.expansionProgress.set state.expandingDim state.expansionRadiusGoal
    if state.expandingDim + 1 ≥ n then
      { state1 with
        positiveExpand := true
        expansionProgress := progress
        baselineRadius := state.expansionRadiusGoal
        expansionRadiusGoal := state.expansionRadiusGoal * (101 / 100)
        expandingDim := 0 }
    else
      { state1 with
        positiveExpand := true
        expansionProgress := progress
        expandingDim := state.expandingDim + 1 }

/-- One scheduler-state operation: a worker claiming the next slab, or a
worker recording a found point. -/
inductive SchedOp where
  | claim (iThread : ℕ)
  | record (iThread : ℕ) (point : List ℚ)
  deriving Repr, DecidableEq

/-- Apply one scheduler-state operation. -/
def schedStep (op : SchedOp) (state : SchedulerState) : SchedulerState :=
  match op with
  | .claim iThread => claimNextTask iThread state
  | .record iThread point => recordResult iThread state point

/-- Run a sequence of scheduler-state operations from left to right. -/
def runSched (ops : List SchedOp) (state : SchedulerState) : SchedulerState :=
  ops.foldl (fun s op => schedStep op s) state

/-- The `GridUniquenessState` initializer in `computeGridUniquenessHypercube`:
baseline = `ignoredCenterDiameter`, goal = twice that, per-axis progress =
`ignoredCenterDiameter`, expanding axis 0 positively, and the no-witness
sentinel `std::numeric_limits<double>::max()`. -/
def initialSchedulerState (numDims numThreads : ℕ) (ignoredCenterDiameter : ℚ) :
    SchedulerState where
  numDims := numDims
  baselineRadius := ignoredCenterDiameter
  expansionRadiusGoal := ignoredCenterDiameter * 2
  expansionProgress := List.replicate numDims ignoredCenterDiameter
  expandingDim := 0
  positiveExpand := true
  continueExpansion := true
  pointWithGridCodeZero := List.replicate numDims 0
  foundPointBaselineRadius := DBL_MAX
  threadBaselineRadius := List.replicate numThreads DBL_MAX
  threadQueryX0 := List.replicate numThreads (List.replicate numDims 0)
  threadQueryDims := List.replicate numThreads (List.replicate numDims 0)
  threadShouldContinue := List.replicate numThreads true

/-! ### Specification-side predicates -/

/-- Membership of an N-point in the hyperrectangle `(x0, dims)` (with the
matching length, so that matrix application reads all `numDims` coordinates). -/
def pointInRect (numDims : ℕ) (x0 dims p : List ℚ) : Prop :=
  p.length = numDims ∧
    ∀ i < numDims, x0.getD i 0 ≤ p.getD i 0 ∧ p.getD i 0 ≤ x0.getD i 0 + dims.getD i 0

instance (numDims : ℕ) (x0 dims p : List ℚ) : Decidable (pointInRect numDims x0 dims p) := by
  unfold pointInRect; infer_instance

/-- `inv` is a left inverse of `B` (what a correctly precomputed
`inverseLatticeBasis` satisfies for a non-singular `latticeBasis`). -/
def isLeftInverse (inv B : Mat2) : Prop := mat2Mul inv B = mat2Id

/-- The bitmask with bit `i` set exactly when `cond i`, for `i < n`. -/
def chooseBits (cond : ℕ → Bool) : ℕ → ℕ
  | 0 => 0
  | n + 1 => chooseBits cond n + (if cond n then 2 ^ n else 0)

/-- A one-dimensional domain mapped onto the x-axis of a plane tiled by the
lattice `2ℤ × 2ℤ`, with `ρ = 1`: on the hyperrectangle `[1/2, 1]` the image
bounding box `[1/2, 1] × {0}` is tangent to the readout disk of lattice point
`(0, 0)` — the distance is exactly `ρ/2`. -/
def tangentModule : GridModule :=
  ⟨([1], [0]), ((2, 0), (0, 2)), ((1 / 2, 0), (0, 1 / 2))⟩

/-- A one-dimensional domain mapped onto the x-axis of a plane tiled by the
lattice with basis columns `(6, 0)` and `(3, 1)`: on the hyperrectangle
`[5/2, 7/2]` with `ρ = 2` the interior point `[3]` is at distance exactly
`ρ/2 = 1` from the lattice points `(3, 1)` and `(3, -1)`, and no lattice point
comes closer to the image segment. -/
def tangencyModule : GridModule :=
  ⟨([1], [0]), ((6, 3), (0, 1)), ((1 / 6, -(1 / 2)), (0, 1))⟩

/-- All module phases of `p` lie within Euclidean distance `r` (squared
comparison) of some lattice point of the respective module. -/
def phasesWithin (modules : List GridModule) (r : ℚ) (p : List ℚ) : Prop :=
  ∀ M ∈ modules, ∃ i j : ℤ,
    distSq (latticePointAt M.latticeBasis i j) (transformND M.domainToPlane p) ≤ r ^ 2

/-- All module phases of `p` lie strictly within Euclidean distance `r` of some
lattice point of the respective module. -/
def phasesStrictlyWithin (modules : List GridModule) (r : ℚ) (p : List ℚ) : Prop :=
  ∀ M ∈ modules, ∃ i j : ℤ,
    distSq (latticePointAt M.latticeBasis i j) (transformND M.domainToPlane p) < r ^ 2

/-- A concrete scheduler state about to dispatch the positive slab of axis 0:
N = 2, baseline 1, goal 2, per-axis progress 1, a single worker. -/
def schedCexState : SchedulerState where
  numDims := 2
  baselineRadius := 1
  expansionRadiusGoal := 2
  expansionProgress := [1, 1]
  expandingDim := 0
  positiveExpand := true
  continueExpansion := true
  pointWithGridCodeZero := [0, 0]
  foundPointBaselineRadius := DBL_MAX
  threadBaselineRadius := [DBL_MAX]
  threadQueryX0 := [[0, 0]]
  threadQueryDims := [[0, 0]]
  threadShouldContinue := [true]

/-- Sum of absolute values of the first `n` row coefficients. -/
def rowAbsSum (row : List ℚ) (n : ℕ) : ℚ := ∑ i ∈ Finset.range n, |row.getD i 0|

/-- An upper bound for `|row · p|` over the points `p` of the hyperrectangle
`(x0, dims)`. -/
def rowAbsRange (row x0 dims : List ℚ) (n : ℕ) : ℚ :=
  ∑ i ∈ Finset.range n, |row.getD i 0| * max |x0.getD i 0| |x0.getD i 0 + dims.getD i 0|

/-- The input stays in double range: every image coordinate of the
hyperrectangle is bounded by `DBL_MAX` in absolute value (via the separable
bound `rowAbsRange`). -/
def rowRangeOK (row x0 dims : List ℚ) (n : ℕ) : Prop :=
  rowAbsRange row x0 dims n ≤ DBL_MAX

/-- Total coefficient mass of a module's 2×N map: bounds the bbox diameter of
the image of a hyperrectangle with sides `≤ δ` by `δ` times this. -/
def moduleKSum (M : GridModule) (n : ℕ) : ℚ :=
  rowAbsSum M.domainToPlane.1 n + rowAbsSum M.domainToPlane.2 n

/-- Maximum of `moduleKSum` over the modules (0 when there are none). -/
def modulesKMax (modules : List GridModule) (n : ℕ) : ℚ :=
  modules.foldr (fun M acc => max (moduleKSum M n) acc) 0

/-- The leaf threshold of the recursion: a hyperrectangle whose sides are all
`≤ leafDelta` is decided by one of the two probes. -/
def leafDelta (modules : List GridModule) (n : ℕ) : ℚ :=
  epsSlack / (modulesKMax modules n + 1)

/-- Number of halvings needed to bring `x` below `δ`:
the least `k` with `x ≤ δ·2^k`. -/
def dimCount (δ x : ℚ) : ℕ := Nat.clog 2 ⌈x / δ⌉.toNat

/-- Termination measure of the recursion: total halvings needed to bring every
side below `δ`. -/
def rectMeasure (δ : ℚ) (n : ℕ) (dims : List ℚ) : ℕ :=
  ∑ i ∈ Finset.range n, dimCount δ (dims.getD i 0)

/-! ### Generic fold and range lemmas -/

lemma getD_set_self {α : Type} {l : List α} {i : ℕ} (h : i < l.length) (a d : α) :
    (l.set i a).getD i d = a := by
  rw [List.getD_eq_getElem?_getD, List.getElem?_set_self (by omega)]
  rfl

lemma getD_set_ne {α : Type} (l : List α) {i k : ℕ} (h : k ≠ i) (a : α) (d : α) :
    (l.set i a).getD k d = l.getD k d := by
  rw [List.getD_eq_getElem?_getD, List.getElem?_set_ne (by omega),
    ← List.getD_eq_getElem?_getD]

lemma set_getD_self {α : Type} : ∀ (l : List α) (i : ℕ) (d : α), l.set i (l.getD i d) = l
  | [], _, _ => rfl
  | x :: xs, 0, _ => rfl
  | x :: xs, i + 1, d => by
    simp only [List.set_cons_succ, List.getD_cons_succ]
    rw [set_getD_self xs i d]

lemma getD_map_range {α : Type} (f : ℕ → α) {n k : ℕ} (h : k < n) (d : α) :
    ((List.range n).map f).getD k d = f k := by
  rw [List.getD_eq_getElem?_getD, List.getElem?_map, List.getElem?_range h]
  rfl

lemma getD_mapIdx {α : Type} :
    ∀ (l : List α) (f : ℕ → α → α) {j : ℕ} (d : α), j < l.length →
      (l.mapIdx f).getD j d = f j (l.getD j d)
  | [], _, _, _, h => by simp at h
  | x :: xs, f, 0, d, _ => by
    rw [List.mapIdx_cons]
    rfl
  | x :: xs, f, j + 1, d, h => by
    rw [List.mapIdx_cons]
    simp only [List.getD_cons_succ]
    exact getD_mapIdx xs (fun i => f (i + 1)) d (by simpa using h)

lemma foldl_min_le_init (l : List ℚ) (a : ℚ) : l.foldl min a ≤ a := by
  induction l generalizing a with
  | nil => exact le_rfl
  | cons x xs ih => exact le_trans (ih (min a x)) (min_le_left a x)

lemma foldl_min_le_mem {l : List ℚ} {x : ℚ} (hx : x ∈ l) (a : ℚ) : l.foldl min a ≤ x := by
  induction l generalizing a with
  | nil => cases hx
  | cons y ys ih =>
    rcases List.mem_cons.mp hx with rfl | hmem
    · exact le_trans (foldl_min_le_init ys (min a x)) (min_le_right a x)
    · exact ih hmem (min a y)

lemma le_foldl_min {l : List ℚ} {c a : ℚ} (ha : c ≤ a) (h : ∀ x ∈ l, c ≤ x) :
    c ≤ l.foldl min a := by
  induction l generalizing a with
  | nil => exact ha
  | cons y ys ih =>
    exact ih (le_min ha (h y (List.mem_cons_self y ys))) fun x hx => h x (List.mem_cons_of_mem y hx)

lemma init_le_foldl_max (l : List ℚ) (a : ℚ) : a ≤ l.foldl max a := by
  induction l generalizing a with
  | nil => exact le_rfl
  | cons x xs ih => exact le_trans (le_max_left a x) (ih (max a x))

lemma mem_le_foldl_max {l : List ℚ} {x : ℚ} (hx : x ∈ l) (a : ℚ) : x ≤ l.foldl max a := by
  induction l generalizing a with
  | nil => cases hx
  | cons y ys ih =>
    rcases List.mem_cons.mp hx with rfl | hmem
    · exact le_trans (le_max_right a x) (init_le_foldl_max ys (max a x))
    · exact ih hmem (max a y)

lemma foldl_max_le {l : List ℚ} {c a : ℚ} (ha : a ≤ c) (h : ∀ x ∈ l, x ≤ c) :
    l.foldl max a ≤ c := by
  induction l generalizing a with
  | nil => exact ha
  | cons y ys ih =>
    exact ih (max_le ha (h y (List.mem_cons_self y ys))) fun x hx => h x (List.mem_cons_of_mem y hx)

lemma mem_intRange {lo hi a : ℤ} : a ∈ intRange lo hi ↔ lo ≤ a ∧ a ≤ hi := by
  simp only [intRange, List.mem_map, List.mem_range]
  constructor
  · rintro ⟨k, hk, rfl⟩; omega
  · rintro ⟨h1, h2⟩
    exact ⟨(a - lo).toNat, by omega, by omega⟩

/-! ### Linear-map and bounding-box lemmas -/

lemma transform2D_mat2Mul (A B : Mat2) (p : Vec2) :
    transform2D (mat2Mul A B) p = transform2D A (transform2D B p) := by
  simp only [transform2D, mat2Mul, Prod.mk.injEq]
  constructor <;> ring

lemma transform2D_id (p : Vec2) : transform2D mat2Id p = p := by
  simp [transform2D, mat2Id]

lemma isLeftInverse.apply {inv B : Mat2} (h : isLeftInverse inv B) (p : Vec2) :
    transform2D inv (transform2D B p) = p := by
  rw [← transform2D_mat2Mul, h, transform2D_id]

lemma mul_mem_min_le {a x lo hi : ℚ} (h1 : lo ≤ x) (h2 : x ≤ hi) :
    min (a * lo) (a * hi) ≤ a * x := by
  rcases le_or_lt 0 a with ha | ha
  · exact le_trans (min_le_left _ _) (by nlinarith)
  · exact le_trans (min_le_right _ _) (by nlinarith)

lemma mul_mem_le_max {a x lo hi : ℚ} (h1 : lo ≤ x) (h2 : x ≤ hi) :
    a * x ≤ max (a * lo) (a * hi) := by
  rcases le_or_lt 0 a with ha | ha
  · exact le_trans (by nlinarith) (le_max_right _ _)
  · exact le_trans (by nlinarith) (le_max_left _ _)

/-- The image of any point of a rectangle under a 2×2 linear map lies inside the
bounding box of the images of the rectangle's four corners. -/
lemma transform_mem_corner_bbox (T : Mat2) (x0 y0 w h : ℚ) {p : Vec2}
    (h1 : x0 ≤ p.1) (h2 : p.1 ≤ x0 + w) (h3 : y0 ≤ p.2) (h4 : p.2 ≤ y0 + h) :
    (boundingBox ((rectCorners x0 y0 w h).map (transform2D T))).1.1 ≤ (transform2D T p).1 ∧
    (transform2D T p).1 ≤ (boundingBox ((rectCorners x0 y0 w h).map (transform2D T))).1.2 ∧
    (boundingBox ((rectCorners x0 y0 w h).map (transform2D T))).2.1 ≤ (transform2D T p).2 ∧
    (transform2D T p).2 ≤ (boundingBox ((rectCorners x0 y0 w h).map (transform2D T))).2.2 := by
  have memfst : ∀ q ∈ rectCorners x0 y0 w h,
      (transform2D T q).1 ∈ (((rectCorners x0 y0 w h).map (transform2D T)).map Prod.fst) := by
    intro q hq
    exact List.mem_map_of_mem _ (List.mem_map_of_mem _ hq)
  have memsnd : ∀ q ∈ rectCorners x0 y0 w h,
      (transform2D T q).2 ∈ (((rectCorners x0 y0 w h).map (transform2D T)).map Prod.snd) := by
    intro q hq
    exact List.mem_map_of_mem _ (List.mem_map_of_mem _ hq)
  have hcorner : ∀ q : Vec2, q ∈ rectCorners x0 y0 w h ↔
      (q = (x0, y0) ∨ q = (x0 + w, y0) ∨ q = (x0, y0 + h) ∨ q = (x0 + w, y0 + h)) := by
    intro q; simp [rectCorners]
  refine ⟨?_, ?_, ?_, ?_⟩
  · have hmx : min (T.1.1 * x0) (T.1.1 * (x0 + w)) ≤ T.1.1 * p.1 := mul_mem_min_le h1 h2
    have hmy : min (T.1.2 * y0) (T.1.2 * (y0 + h)) ≤ T.1.2 * p.2 := mul_mem_min_le h3 h4
    rcases min_cases (T.1.1 * x0) (T.1.1 * (x0 + w)) with ⟨e1, _⟩ | ⟨e1, _⟩ <;>
      rcases min_cases (T.1.2 * y0) (T.1.2 * (y0 + h)) with ⟨e2, _⟩ | ⟨e2, _⟩ <;>
      [ (have hm := foldl_min_le_mem (memfst (x0, y0) (by simp [rectCorners])) DBL_MAX);
        (have hm := foldl_min_le_mem (memfst (x0, y0 + h) (by simp [rectCorners])) DBL_MAX);
        (have hm := foldl_min_le_mem (memfst (x0 + w, y0) (by simp [rectCorners])) DBL_MAX);
        (have hm := foldl_min_le_mem (memfst (x0 + w, y0 + h) (by simp [rectCorners])) DBL_MAX) ] <;>
      · simp only [boundingBox, transform2D] at hm ⊢
        refine le_trans hm ?_
        dsimp only
        linarith
  · have hmx : T.1.1 * p.1 ≤ max (T.1.1 * x0) (T.1.1 * (x0 + w)) := mul_mem_le_max h1 h2
    have hmy : T.1.2 * p.2 ≤ max (T.1.2 * y0) (T.1.2 * (y0 + h)) := mul_mem_le_max h3 h4
    rcases max_cases (T.1.1 * x0) (T.1.1 * (x0 + w)) with ⟨e1, _⟩ | ⟨e1, _⟩ <;>
      rcases max_cases (T.1.2 * y0) (T.1.2 * (y0 + h)) with ⟨e2, _⟩ | ⟨e2, _⟩ <;>
      [ (have hm := mem_le_foldl_max (memfst (x0, y0) (by simp [rectCorners])) DBL_LOWEST);
        (have hm := mem_le_foldl_max (memfst (x0, y0 + h) (by simp [rectCorners])) DBL_LOWEST);
        (have hm := mem_le_foldl_max (memfst (x0 + w, y0) (by simp [rectCorners])) DBL_LOWEST);
        (have hm := mem_le_foldl_max (memfst (x0 + w, y0 + h) (by simp [rectCorners])) DBL_LOWEST) ] <;>
      · simp only [boundingBox, transform2D] at hm ⊢
        refine le_trans ?_ hm
        dsimp only
        linarith
  · have hmx : min (T.2.1 * x0) (T.2.1 * (x0 + w)) ≤ T.2.1 * p.1 := mul_mem_min_le h1 h2
    have hmy : min (T.2.2 * y0) (T.2.2 * (y0 + h)) ≤ T.2.2 * p.2 := mul_mem_min_le h3 h4
    rcases min_cases (T.2.1 * x0) (T.2.1 * (x0 + w)) with ⟨e1, _⟩ | ⟨e1, _⟩ <;>
      rcases min_cases (T.2.2 * y0) (T.2.2 * (y0 + h)) with ⟨e2, _⟩ | ⟨e2, _⟩ <;>
      [ (have hm := foldl_min_le_mem (memsnd (x0, y0) (by simp [rectCorners])) DBL_MAX);
        (have hm := foldl_min_le_mem (memsnd (x0, y0 + h) (by simp [rectCorners])) DBL_MAX);
        (have hm := foldl_min_le_mem (memsnd (x0 + w, y0) (by simp [rectCorners])) DBL_MAX);
        (have hm := foldl_min_le_mem (memsnd (x0 + w, y0 + h) (by simp [rectCorners])) DBL_MAX) ] <;>
      · simp only [boundingBox, transform2D] at hm ⊢
        refine le_trans hm ?_
        dsimp only
        linarith
  · have hmx : T.2.1 * p.1 ≤ max (T.2.1 * x0) (T.2.1 * (x0 + w)) := mul_mem_le_max h1 h2
    have hmy : T.2.2 * p.2 ≤ max (T.2.2 * y0) (T.2.2 * (y0 + h)) := mul_mem_le_max h3 h4
    rcases max_cases (T.2.1 * x0) (T.2.1 * (x0 + w)) with ⟨e1, _⟩ | ⟨e1, _⟩ <;>
      rcases max_cases (T.2.2 * y0) (T.2.2 * (y0 + h)) with ⟨e2, _⟩ | ⟨e2, _⟩ <;>
      [ (have hm := mem_le_foldl_max (memsnd (x0, y0) (by simp [rectCorners])) DBL_LOWEST);
        (have hm := mem_le_foldl_max (memsnd (x0, y0 + h) (by simp [rectCorners])) DBL_LOWEST);
        (have hm := mem_le_foldl_max (memsnd (x0 + w, y0) (by simp [rectCorners])) DBL_LOWEST);
        (have hm := mem_le_foldl_max (memsnd (x0 + w, y0 + h) (by simp [rectCorners])) DBL_LOWEST) ] <;>
      · simp only [boundingBox, transform2D] at hm ⊢
        refine le_trans ?_ hm
        dsimp only
        linarith

/-! ### Lattice-point enumerator: soundness and completeness -/

lemma inRect_iff {x0 y0 w h : ℚ} {p : Vec2} :
    inRect x0 y0 w h p = true ↔ x0 ≤ p.1 ∧ p.1 ≤ x0 + w ∧ y0 ≤ p.2 ∧ p.2 ≤ y0 + h := by
  simp [inRect]

lemma latticePoints_sound {B inv : Mat2} {x0 y0 w h : ℚ} {p : Vec2}
    (hp : p ∈ latticePoints B inv x0 y0 w h) :
    (∃ i j : ℤ, p = latticePointAt B i j) ∧ inRect x0 y0 w h p = true := by
  simp only [latticePoints, List.mem_filter, List.mem_flatMap, List.mem_map] at hp
  obtain ⟨⟨i, -, j, -, hj⟩, hrect⟩ := hp
  exact ⟨⟨i, j, hj.symm⟩, hrect⟩

lemma latticePoints_complete {B inv : Mat2} (hinv : isLeftInverse inv B) {x0 y0 w h : ℚ}
    (i j : ℤ) (hin : inRect x0 y0 w h (latticePointAt B i j) = true) :
    latticePointAt B i j ∈ latticePoints B inv x0 y0 w h := by
  obtain ⟨r1, r2, r3, r4⟩ := inRect_iff.mp hin
  have hbb := transform_mem_corner_bbox inv x0 y0 w h r1 r2 r3 r4
  have hq : transform2D inv (latticePointAt B i j) = ((i : ℚ), (j : ℚ)) :=
    hinv.apply ((i : ℚ), (j : ℚ))
  rw [hq] at hbb
  simp only [latticePoints, List.mem_filter, List.mem_flatMap, List.mem_map]
  refine ⟨⟨i, mem_intRange.mpr ⟨Int.ceil_le.mpr hbb.1, Int.le_floor.mpr hbb.2.1⟩,
    j, mem_intRange.mpr ⟨Int.ceil_le.mpr hbb.2.2.1, Int.le_floor.mpr hbb.2.2.2⟩, rfl⟩, hin⟩

/-- Claim C4: for every non-singular lattice basis `L` with (left) inverse
`L⁻¹` and every axis-aligned rectangle `R = [x0, x0+w] × [y0, y0+h]`, the
points emitted by the `LatticePointEnumerator` contain every lattice point
`L·(i, j)` lying inside `R` (closed boundaries), and every emitted point is a
lattice point lying inside `R`. -/
theorem claim_C4_latticePointEnumerator {latticeBasis inverseLatticeBasis : Mat2}
    (hinv : isLeftInverse inverseLatticeBasis latticeBasis) (x0 y0 w h : ℚ) :
    (∀ i j : ℤ,
      x0 ≤ (latticePointAt latticeBasis i j).1 →
      (latticePointAt latticeBasis i j).1 ≤ x0 + w →
      y0 ≤ (latticePointAt latticeBasis i j).2 →
      (latticePointAt latticeBasis i j).2 ≤ y0 + h →
      latticePointAt latticeBasis i j ∈
        latticePoints latticeBasis inverseLatticeBasis x0 y0 w h) ∧
    ∀ p ∈ latticePoints latticeBasis inverseLatticeBasis x0 y0 w h,
      (x0 ≤ p.1 ∧ p.1 ≤ x0 + w ∧ y0 ≤ p.2 ∧ p.2 ≤ y0 + h) ∧
        ∃ i j : ℤ, p = latticePointAt latticeBasis i j := by
  constructor
  · intro i j h1 h2 h3 h4
    exact latticePoints_complete hinv i j (inRect_iff.mpr ⟨h1, h2, h3, h4⟩)
  · intro p hp
    obtain ⟨hform, hrect⟩ := latticePoints_sound hp
    exact ⟨inRect_iff.mp hrect, hform⟩

/-- Witness for C4 at the identity basis on `[0, 3/2] × [0, 3/2]`:
the lattice point `(1, 1)` is inside and is emitted, and every
emitted point is an in-rectangle lattice point. -/
theorem claim_C4_witness :
    latticePointAt mat2Id 1 1 ∈ latticePoints mat2Id mat2Id 0 0 (3 / 2) (3 / 2) ∧
    ∀ p ∈ latticePoints mat2Id mat2Id 0 0 (3 / 2) (3 / 2),
      (0 ≤ p.1 ∧ p.1 ≤ 0 + 3 / 2 ∧ 0 ≤ p.2 ∧ p.2 ≤ 0 + 3 / 2) ∧
        ∃ i j : ℤ, p = latticePointAt mat2Id i j := by
  have hid : isLeftInverse mat2Id mat2Id := by
    simp only [isLeftInverse, mat2Mul, mat2Id]
    norm_num
  have h := @claim_C4_latticePointEnumerator mat2Id mat2Id hid 0 0 (3 / 2) (3 / 2)
  refine ⟨h.1 1 1 ?_ ?_ ?_ ?_, h.2⟩ <;>
    norm_num [latticePointAt, transform2D, mat2Id]

/-! ### Hyperrectangle vertices and the N-dimensional image bounding box -/

lemma dotProd_eq_sum {a b : List ℚ} {n : ℕ} (ha : a.length = n) (hb : b.length = n) :
    dotProd a b = ∑ i ∈ Finset.range n, a.getD i 0 * b.getD i 0 := by
  induction a generalizing b n with
  | nil =>
    simp only [List.length_nil] at ha
    subst ha
    simp [dotProd]
  | cons x xs ih =>
    cases b with
    | nil => simp [← hb] at ha
    | cons y ys =>
      simp only [List.length_cons] at ha hb
      subst ha
      simp only [dotProd, List.zipWith_cons_cons, List.sum_cons]
      rw [Finset.sum_range_succ']
      simp only [List.getD_cons_succ, List.getD_cons_zero]
      rw [← ih (n := xs.length) rfl (by omega)]
      rw [dotProd]
      ring

lemma chooseBits_lt (cond : ℕ → Bool) (n : ℕ) : chooseBits cond n < 2 ^ n := by
  induction n with
  | zero => simp [chooseBits]
  | succ n ih =>
    have h2 : (2:ℕ) ^ (n + 1) = 2 ^ n + 2 ^ n := by ring
    rcases h : cond n <;> simp [chooseBits, h] <;> omega

lemma testBit_add_two_pow {c n i : ℕ} (h : i < n) : (c + 2 ^ n).testBit i = c.testBit i := by
  have hm : (2:ℕ) ^ n = 2 ^ i * (2 * 2 ^ (n - i - 1)) := by
    rw [← pow_succ', ← pow_add]
    congr 1
    omega
  rw [Nat.testBit_to_div_mod, Nat.testBit_to_div_mod, hm,
    Nat.add_mul_div_left _ _ (by positivity), Nat.add_mul_mod_self_left]

lemma testBit_add_two_pow_self {c i : ℕ} (hc : c < 2 ^ i) : (c + 2 ^ i).testBit i = true := by
  rw [Nat.testBit_to_div_mod, Nat.add_div_right _ (by positivity), Nat.div_eq_of_lt hc]
  norm_num

lemma chooseBits_testBit (cond : ℕ → Bool) {n i : ℕ} (h : i < n) :
    (chooseBits cond n).testBit i = cond i := by
  induction n with
  | zero => omega
  | succ n ih =>
    rcases Nat.lt_or_ge i n with hi | hi
    · by_cases hcn : cond n = true
      · simp only [chooseBits, if_pos hcn]
        rw [testBit_add_two_pow hi]
        exact ih hi
      · simp only [chooseBits, if_neg hcn, Nat.add_zero]
        exact ih hi
    · have hin : i = n := by omega
      subst hin
      by_cases hcn : cond i = true
      · simp only [chooseBits, if_pos hcn]
        rw [testBit_add_two_pow_self (chooseBits_lt cond i), hcn]
      · simp only [chooseBits, if_neg hcn, Nat.add_zero]
        rw [Nat.testBit_lt_two_pow (chooseBits_lt cond i)]
        simp only [Bool.not_eq_true] at hcn
        exact hcn.symm

lemma vertexOf_length (n : ℕ) (x0 dims : List ℚ) (b : ℕ) :
    (vertexOf n x0 dims b).length = n := by
  simp [vertexOf]

lemma vertexOf_getD {n : ℕ} (x0 dims : List ℚ) (b : ℕ) {i : ℕ} (h : i < n) :
    (vertexOf n x0 dims b).getD i 0 =
      x0.getD i 0 + if b.testBit i then dims.getD i 0 else 0 := by
  simp only [vertexOf]
  rw [List.getD_eq_getElem?_getD, List.getElem?_map, List.getElem?_range h]
  rfl

lemma vertexOf_mem (n : ℕ) (x0 dims : List ℚ) {b : ℕ} (hb : b < 2 ^ n) :
    vertexOf n x0 dims b ∈ hyperrectangleVertices n x0 dims :=
  List.mem_map_of_mem _ (List.mem_range.mpr hb)

/-- Every emitted vertex lies in the (closed) hyperrectangle, provided the
side lengths are nonnegative. -/
lemma vertexOf_pointInRect {n : ℕ} {x0 dims : List ℚ}
    (hdims : ∀ i < n, 0 ≤ dims.getD i 0) (b : ℕ) :
    pointInRect n x0 dims (vertexOf n x0 dims b) := by
  refine ⟨vertexOf_length n x0 dims b, fun i hi => ?_⟩
  rw [vertexOf_getD x0 dims b hi]
  by_cases hbit : b.testBit i = true
  · rw [if_pos hbit]
    constructor
    · linarith [hdims i hi]
    · linarith
  · rw [if_neg hbit]
    constructor
    · linarith
    · linarith [hdims i hi]

/-- Any point of the hyperrectangle dominates the vertex that minimizes a row
functional. -/
lemma dotProd_choose_min_le {n : ℕ} {row x0 dims p : List ℚ}
    (hrow : row.length = n) (hp : p.length = n)
    (hb : ∀ i < n, x0.getD i 0 ≤ p.getD i 0 ∧ p.getD i 0 ≤ x0.getD i 0 + dims.getD i 0) :
    dotProd row
        (vertexOf n x0 dims
          (chooseBits (fun i => decide (row.getD i 0 * dims.getD i 0 < 0)) n)) ≤
      dotProd row p := by
  rw [dotProd_eq_sum hrow (vertexOf_length n x0 dims _), dotProd_eq_sum hrow hp]
  apply Finset.sum_le_sum
  intro i hi
  have hin : i < n := Finset.mem_range.mp hi
  rw [vertexOf_getD x0 dims _ hin, chooseBits_testBit _ hin]
  obtain ⟨hb1, hb2⟩ := hb i hin
  simp only [decide_eq_true_eq]
  by_cases hcond : row.getD i 0 * dims.getD i 0 < 0
  · rw [if_pos hcond]
    rcases le_or_lt 0 (row.getD i 0) with hr | hr
    · nlinarith
    · nlinarith
  · rw [if_neg hcond]
    have hge : 0 ≤ row.getD i 0 * dims.getD i 0 := not_lt.mp hcond
    rcases le_or_lt 0 (row.getD i 0) with hr | hr
    · nlinarith
    · nlinarith

/-- Any point of the hyperrectangle is dominated by the vertex that maximizes a
row functional. -/
lemma dotProd_le_choose_max {n : ℕ} {row x0 dims p : List ℚ}
    (hrow : row.length = n) (hp : p.length = n)
    (hb : ∀ i < n, x0.getD i 0 ≤ p.getD i 0 ∧ p.getD i 0 ≤ x0.getD i 0 + dims.getD i 0) :
    dotProd row p ≤
      dotProd row
        (vertexOf n x0 dims
          (chooseBits (fun i => decide (0 < row.getD i 0 * dims.getD i 0)) n)) := by
  rw [dotProd_eq_sum hrow (vertexOf_length n x0 dims _), dotProd_eq_sum hrow hp]
  apply Finset.sum_le_sum
  intro i hi
  have hin : i < n := Finset.mem_range.mp hi
  rw [vertexOf_getD x0 dims _ hin, chooseBits_testBit _ hin]
  obtain ⟨hb1, hb2⟩ := hb i hin
  simp only [decide_eq_true_eq]
  by_cases hcond : 0 < row.getD i 0 * dims.getD i 0
  · rw [if_pos hcond]
    rcases le_or_lt 0 (row.getD i 0) with hr | hr
    · nlinarith
    · nlinarith
  · rw [if_neg hcond]
    have hle : row.getD i 0 * dims.getD i 0 ≤ 0 := not_lt.mp hcond
    rcases le_or_lt 0 (row.getD i 0) with hr | hr
    · nlinarith
    · nlinarith

/-- The image of any point of the hyperrectangle under a 2×N map lies in the
bounding box of the images of the hyperrectangle's vertices. -/
lemma image_mem_vertex_bbox {M : Mat2N} {n : ℕ} {x0 dims p : List ℚ}
    (h1 : M.1.length = n) (h2 : M.2.length = n) (hp : pointInRect n x0 dims p) :
    (boundingBox ((hyperrectangleVertices n x0 dims).map (transformND M))).1.1 ≤
        (transformND M p).1 ∧
      (transformND M p).1 ≤
        (boundingBox ((hyperrectangleVertices n x0 dims).map (transformND M))).1.2 ∧
      (boundingBox ((hyperrectangleVertices n x0 dims).map (transformND M))).2.1 ≤
        (transformND M p).2 ∧
      (transformND M p).2 ≤
        (boundingBox ((hyperrectangleVertices n x0 dims).map (transformND M))).2.2 := by
  obtain ⟨hplen, hpb⟩ := hp
  have hfst : ((hyperrectangleVertices n x0 dims).map (transformND M)).map Prod.fst =
      (hyperrectangleVertices n x0 dims).map fun v => dotProd M.1 v := by
    rw [List.map_map]
    rfl
  have hsnd : ((hyperrectangleVertices n x0 dims).map (transformND M)).map Prod.snd =
      (hyperrectangleVertices n x0 dims).map fun v => dotProd M.2 v := by
    rw [List.map_map]
    rfl
  refine ⟨?_, ?_, ?_, ?_⟩
  · show (_ : List ℚ).foldl min DBL_MAX ≤ _
    rw [hfst]
    have hmem := vertexOf_mem n x0 dims
      (chooseBits_lt (fun i => decide (M.1.getD i 0 * dims.getD i 0 < 0)) n)
    exact le_trans (foldl_min_le_mem (List.mem_map_of_mem _ hmem) DBL_MAX)
      (dotProd_choose_min_le h1 hplen hpb)
  · show _ ≤ (_ : List ℚ).foldl max DBL_LOWEST
    rw [hfst]
    have hmem := vertexOf_mem n x0 dims
      (chooseBits_lt (fun i => decide (0 < M.1.getD i 0 * dims.getD i 0)) n)
    exact le_trans (dotProd_le_choose_max h1 hplen hpb)
      (mem_le_foldl_max (List.mem_map_of_mem _ hmem) DBL_LOWEST)
  · show (_ : List ℚ).foldl min DBL_MAX ≤ _
    rw [hsnd]
    have hmem := vertexOf_mem n x0 dims
      (chooseBits_lt (fun i => decide (M.2.getD i 0 * dims.getD i 0 < 0)) n)
    exact le_trans (foldl_min_le_mem (List.mem_map_of_mem _ hmem) DBL_MAX)
      (dotProd_choose_min_le h2 hplen hpb)
  · show _ ≤ (_ : List ℚ).foldl max DBL_LOWEST
    rw [hsnd]
    have hmem := vertexOf_mem n x0 dims
      (chooseBits_lt (fun i => decide (0 < M.2.getD i 0 * dims.getD i 0)) n)
    exact le_trans (dotProd_le_choose_max h2 hplen hpb)
      (mem_le_foldl_max (List.mem_map_of_mem _ hmem) DBL_LOWEST)

/-! ### Soundness of the disqualification probe -/

/-- The clamp of `z` to `[lo, hi]` is at least as close to `z` as any point of
`[lo, hi]`, in squared distance. -/
lemma clamp_closest {z lo hi q : ℚ} (h1 : lo ≤ q) (h2 : q ≤ hi) :
    (z - max lo (min z hi)) ^ 2 ≤ (z - q) ^ 2 := by
  rcases le_total z lo with hz | hz
  · have hmin : min z hi ≤ lo := le_trans (min_le_left _ _) hz
    rw [max_eq_left hmin]
    nlinarith
  · rcases le_total hi z with hz2 | hz2
    · rw [min_eq_right hz2, max_eq_right (le_trans h1 h2)]
      nlinarith
    · rw [min_eq_left hz2, max_eq_right hz]
      nlinarith

/-- Core soundness of one module's disqualification pass: if
`moduleExcludesGridCodeZero` returns true then every point of the
hyperrectangle has its image at squared distance at least `(ρ/2)²` from every
lattice point of the module. -/
lemma moduleExcludes_sound {M : GridModule} {n : ℕ} {x0 dims : List ℚ} {ρ : ℚ}
    (hinv : isLeftInverse M.inverseLatticeBasis M.latticeBasis)
    (hρ : 0 ≤ ρ)
    (h1 : M.domainToPlane.1.length = n) (h2 : M.domainToPlane.2.length = n)
    (hex : moduleExcludesGridCodeZero M n x0 dims ρ = true) :
    ∀ p, pointInRect n x0 dims p → ∀ i j : ℤ,
      (ρ / 2) ^ 2 ≤
        distSq (latticePointAt M.latticeBasis i j) (transformND M.domainToPlane p) := by
  intro p hp i j
  simp only [moduleExcludesGridCodeZero, Bool.not_eq_true', List.any_eq_false] at hex
  set bb := boundingBox ((hyperrectangleVertices n x0 dims).map (transformND M.domainToPlane))
    with hbbdef
  set r := ρ / 2 with hrdef
  have hr : 0 ≤ r := by positivity
  obtain ⟨hi1, hi2, hi3, hi4⟩ := image_mem_vertex_bbox h1 h2 hp
  set img := transformND M.domainToPlane p
  set L := latticePointAt M.latticeBasis i j with hLdef
  by_cases hmem : inRect (bb.1.1 - r) (bb.2.1 - r) (bb.1.2 - bb.1.1 + 2 * r)
      (bb.2.2 - bb.2.1 + 2 * r) L = true
  · have hLmem : L ∈ latticePoints M.latticeBasis M.inverseLatticeBasis
        (bb.1.1 - r) (bb.2.1 - r) (bb.1.2 - bb.1.1 + 2 * r) (bb.2.2 - bb.2.1 + 2 * r) :=
      latticePoints_complete hinv i j hmem
    have hcoll := hex L hLmem
    simp only [latticeCollision, decide_eq_true_eq, not_lt] at hcoll
    have hx := clamp_closest (z := L.1) hi1 hi2
    have hy := clamp_closest (z := L.2) hi3 hi4
    calc r ^ 2 ≤ distSq L (nearestBBoxPoint bb.1.1 bb.1.2 bb.2.1 bb.2.2 L) := hcoll
      _ ≤ (L.1 - img.1) ^ 2 + (L.2 - img.2) ^ 2 := add_le_add hx hy
      _ = distSq L img := rfl
  · simp only [inRect, decide_eq_true_eq, not_and_or, not_le] at hmem
    have hdist : distSq L img = (L.1 - img.1) ^ 2 + (L.2 - img.2) ^ 2 := rfl
    rw [hdist]
    rcases hmem with hout | hout | hout | hout
    · nlinarith [sq_nonneg (L.2 - img.2)]
    · nlinarith [sq_nonneg (L.2 - img.2)]
    · nlinarith [sq_nonneg (L.1 - img.1)]
    · nlinarith [sq_nonneg (L.1 - img.1)]

/-! ### Claim C1: sound rejection of the disqualification probe -/

/-- Concrete evaluation: the disqualification probe accepts the tangent
hyperrectangle `[1/2, 1]` (the strict `<` in the collision test misses the
tangent lattice disk). -/
lemma tangentModule_probe_eval :
    tryProveGridCodeZeroImpossible [tangentModule] 1 [1 / 2] [1 / 2] 1 = true := by
  have hv : hyperrectangleVertices 1 [1 / 2] [1 / 2] = [[1 / 2], [1]] := by
    simp [hyperrectangleVertices, vertexOf, List.range_succ]
    norm_num
  have himg : ([[(1 : ℚ) / 2], [1]] : List (List ℚ)).map (transformND tangentModule.domainToPlane)
      = [(1 / 2, 0), (1, 0)] := by
    simp [transformND, dotProd, tangentModule]
  have hbb : boundingBox [((1 : ℚ) / 2, (0 : ℚ)), (1, 0)] = ((1 / 2, 1), (0, 0)) := by
    simp only [boundingBox, List.map, List.foldl]
    norm_num [DBL_MAX, DBL_LOWEST]
  have hr0 : intRange 0 0 = [0] := by norm_num [intRange, List.range_succ]
  have hlp : latticePoints tangentModule.latticeBasis tangentModule.inverseLatticeBasis
      (1 / 2 - 1 / 2) (0 - 1 / 2) (1 - 1 / 2 + 2 * (1 / 2)) (0 - 0 + 2 * (1 / 2)) = [(0, 0)] := by
    have hc : boundingBox ((rectCorners (1 / 2 - 1 / 2) (0 - 1 / 2) (1 - 1 / 2 + 2 * (1 / 2))
        (0 - 0 + 2 * (1 / 2))).map (transform2D tangentModule.inverseLatticeBasis))
        = ((0, 3 / 4), (-(1 / 4), 1 / 4)) := by
      simp only [rectCorners, List.map, boundingBox, transform2D, tangentModule, List.foldl]
      norm_num [DBL_MAX, DBL_LOWEST]
    simp only [latticePoints, hc]
    have h1 : ⌈(0 : ℚ)⌉ = 0 := by norm_num
    have h2 : ⌊(3 / 4 : ℚ)⌋ = 0 := by norm_num
    have h3 : ⌈(-(1 / 4) : ℚ)⌉ = 0 := by norm_num
    have h4 : ⌊(1 / 4 : ℚ)⌋ = 0 := by norm_num
    rw [h1, h2, h3, h4, hr0]
    simp only [List.flatMap, List.map, List.flatten, List.append_nil, List.filter]
    norm_num [inRect, transform2D, tangentModule]
  simp only [tryProveGridCodeZeroImpossible, List.any, moduleExcludesGridCodeZero]
  rw [hv, himg, hbb]
  dsimp only
  rw [hlp]
  simp only [List.any, latticeCollision, Bool.or_false]
  norm_num [distSq, nearestBBoxPoint]

/-- Claim C1 (counterexample): on the tangent input the disqualification probe
returns true although the hyperrectangle `[1/2, 1]` contains the point `[1/2]`,
a grid-code-zero point — its image is at distance exactly `ρ/2` (not strictly
more) from the lattice point `(0, 0)` of the only module.  This refutes both
the claimed strict distance bound and the claimed impossibility of a
grid-code-zero point in an accepted hyperrectangle. -/
theorem claim_C1_counterexample :
    tryProveGridCodeZeroImpossible [tangentModule] 1 [1 / 2] [1 / 2] 1 = true ∧
    pointInRect 1 [1 / 2] [1 / 2] [1 / 2] ∧
    ∀ M ∈ [tangentModule], ∃ i j : ℤ,
      distSq (latticePointAt M.latticeBasis i j) (transformND M.domainToPlane [1 / 2]) ≤
        ((1 : ℚ) / 2) ^ 2 := by
  refine ⟨tangentModule_probe_eval, ⟨rfl, ?_⟩, ?_⟩
  · intro i hi
    interval_cases i
    norm_num
  · intro M hM
    simp only [List.mem_singleton] at hM
    subst hM
    refine ⟨0, 0, ?_⟩
    norm_num [distSq, latticePointAt, transform2D, transformND, dotProd, tangentModule]

/-- Claim C1 (amended): sound rejection with a non-strict bound.  If the
disqualification probe returns true on a hyperrectangle, then every point of
the hyperrectangle has at least one module all of whose lattice points are at
squared Euclidean distance **at least** `(ρ/2)²` from the point's image (the
strict `<` collision test only guarantees `≥`, as the tangent counterexample
shows); in particular the probe never accepts a hyperrectangle containing a
point whose every module phase is strictly within `ρ/2` of a lattice point. -/
theorem claim_C1_amended {modules : List GridModule} {n : ℕ} {x0 dims : List ℚ} {ρ : ℚ}
    (hinv : ∀ M ∈ modules, isLeftInverse M.inverseLatticeBasis M.latticeBasis)
    (hlen : ∀ M ∈ modules,
      M.domainToPlane.1.length = n ∧ M.domainToPlane.2.length = n)
    (hρ : 0 ≤ ρ)
    (hprobe : tryProveGridCodeZeroImpossible modules n x0 dims ρ = true) :
    ∀ p, pointInRect n x0 dims p →
      ∃ M ∈ modules, ∀ i j : ℤ,
        (ρ / 2) ^ 2 ≤
          distSq (latticePointAt M.latticeBasis i j) (transformND M.domainToPlane p) := by
  intro p hp
  simp only [tryProveGridCodeZeroImpossible, List.any_eq_true] at hprobe
  obtain ⟨M, hM, hex⟩ := hprobe
  exact ⟨M, hM,
    moduleExcludes_sound (hinv M hM) hρ (hlen M hM).1 (hlen M hM).2 hex p hp⟩

/-- Witness for the amended C1, at the tangent input: the probe accepts, and
the amended conclusion holds at the point `[1/2]`. -/
theorem claim_C1_amended_witness :
    ∃ M ∈ [tangentModule], ∀ i j : ℤ,
      ((1 : ℚ) / 2) ^ 2 ≤
        distSq (latticePointAt M.latticeBasis i j) (transformND M.domainToPlane [1 / 2]) := by
  have hinv : ∀ M ∈ [tangentModule], isLeftInverse M.inverseLatticeBasis M.latticeBasis := by
    intro M hM
    simp only [List.mem_singleton] at hM
    subst hM
    simp only [isLeftInverse, mat2Mul, mat2Id, tangentModule]
    norm_num
  have hlen : ∀ M ∈ [tangentModule],
      M.domainToPlane.1.length = 1 ∧ M.domainToPlane.2.length = 1 := by
    intro M hM
    simp only [List.mem_singleton] at hM
    subst hM
    exact ⟨rfl, rfl⟩
  have hrect : pointInRect 1 [1 / 2] [1 / 2] [1 / 2] := by
    refine ⟨rfl, ?_⟩
    intro i hi
    interval_cases i
    norm_num
  exact claim_C1_amended hinv hlen (by norm_num) tangentModule_probe_eval [1 / 2] hrect

/-! ### Claim C5: the disqualification collision test -/

/-- Claim C5 (counterexample): at the tangent configuration the closed disk of
radius `r = 1/2` around the lattice point `(0, 0)` touches the bbox
`[1/2, 1] × [0, 0]` (squared distance to the nearest bbox point is exactly
`r²`), yet the code counts no collision — the test is strict. -/
theorem claim_C5_counterexample :
    distSq (0, 0) (nearestBBoxPoint (1 / 2) 1 0 0 ((0 : ℚ), (0 : ℚ))) ≤ ((1 : ℚ) / 2) ^ 2 ∧
    latticeCollision (1 / 2) (1 / 2) 1 0 0 (0, 0) = false := by
  constructor
  · norm_num [distSq, nearestBBoxPoint]
  · simp only [latticeCollision, decide_eq_false_iff_not, not_lt]
    norm_num [distSq, nearestBBoxPoint]

/-- Claim C5 (amended): the collision test counts a collision exactly when the
**open** disk of radius `r` at the lattice point meets the bbox — i.e. exactly
when the nearest bbox point is at squared distance strictly less than `r²`
(the tangent case `= r²` is not a collision); and the clamped point used by
the test is indeed a closest point of the bbox. -/
theorem claim_C5_amended (r xmin xmax ymin ymax : ℚ) (L : Vec2) :
    (latticeCollision r xmin xmax ymin ymax L = true ↔
      distSq L (nearestBBoxPoint xmin xmax ymin ymax L) < r ^ 2) ∧
    ∀ q : Vec2, xmin ≤ q.1 → q.1 ≤ xmax → ymin ≤ q.2 → q.2 ≤ ymax →
      distSq L (nearestBBoxPoint xmin xmax ymin ymax L) ≤ distSq L q := by
  constructor
  · simp [latticeCollision]
  · intro q hq1 hq2 hq3 hq4
    exact add_le_add (clamp_closest hq1 hq2) (clamp_closest hq3 hq4)

/-- Witness for the amended C5 at a concrete configuration with a genuine
collision: `r = 1`, bbox `[1/2, 1] × [0, 0]`, lattice point `(0, 0)`. -/
theorem claim_C5_amended_witness :
    (latticeCollision 1 (1 / 2) 1 0 0 ((0 : ℚ), (0 : ℚ)) = true ↔
      distSq ((0 : ℚ), (0 : ℚ)) (nearestBBoxPoint (1 / 2) 1 0 0 ((0 : ℚ), (0 : ℚ))) < 1 ^ 2) ∧
    distSq ((0 : ℚ), (0 : ℚ)) (nearestBBoxPoint (1 / 2) 1 0 0 ((0 : ℚ), (0 : ℚ))) ≤
      distSq ((0 : ℚ), (0 : ℚ)) ((3 / 4 : ℚ), (0 : ℚ)) := by
  have h := claim_C5_amended 1 (1 / 2) 1 0 0 ((0 : ℚ), (0 : ℚ))
  exact ⟨h.1, h.2 ((3 / 4 : ℚ), (0 : ℚ)) (by norm_num) (by norm_num) le_rfl le_rfl⟩

/-! ### Claim C3: the existence probe -/

/-- The per-vertex test of the existence probe agrees with the mathematical
condition "every module phase within `ρ/2 + ε` of a lattice point". -/
lemma vertexIsZero_iff {modules : List GridModule} {ρ : ℚ} {v : List ℚ}
    (hinv : ∀ M ∈ modules, isLeftInverse M.inverseLatticeBasis M.latticeBasis)
    (hρ : 0 ≤ ρ) :
    vertexIsZero modules ρ v = true ↔ phasesWithin modules (ρ / 2 + epsSlack) v := by
  have hr : (0 : ℚ) ≤ ρ / 2 + epsSlack := by
    simp only [epsSlack]
    positivity
  simp only [vertexIsZero, List.all_eq_true, phasesWithin]
  refine forall_congr' fun M => forall_congr' fun hM => ?_
  simp only [vertexHasZeroInModule, List.any_eq_true, decide_eq_true_eq]
  constructor
  · rintro ⟨L, hLmem, hLd⟩
    obtain ⟨⟨i, j, rfl⟩, -⟩ := latticePoints_sound hLmem
    exact ⟨i, j, hLd⟩
  · rintro ⟨i, j, hd⟩
    set img := transformND M.domainToPlane v with himg
    set L := latticePointAt M.latticeBasis i j with hL
    set r := ρ / 2 + epsSlack with hrd
    have hdx : (L.1 - img.1) ^ 2 ≤ r ^ 2 := by
      have := sq_nonneg (L.2 - img.2)
      simp only [distSq] at hd
      nlinarith
    have hdy : (L.2 - img.2) ^ 2 ≤ r ^ 2 := by
      have := sq_nonneg (L.1 - img.1)
      simp only [distSq] at hd
      nlinarith
    have hx1 : img.1 - r ≤ L.1 := by nlinarith
    have hx2 : L.1 ≤ img.1 + r := by nlinarith
    have hy1 : img.2 - r ≤ L.2 := by nlinarith
    have hy2 : L.2 ≤ img.2 + r := by nlinarith
    refine ⟨L, latticePoints_complete (hinv M hM) i j (inRect_iff.mpr ⟨hx1, ?_, hy1, ?_⟩), hd⟩
    · linarith
    · linarith

/-- `List.find?` returns exactly the first element satisfying the predicate. -/
lemma find?_eq_some_iff_first {α : Type} (p : α → Bool) (l : List α) (v : α) :
    l.find? p = some v ↔
      ∃ k : ℕ, l.get? k = some v ∧ p v = true ∧
        ∀ k' < k, ∀ v', l.get? k' = some v' → p v' = false := by
  induction l with
  | nil =>
    simp only [List.find?_nil]
    constructor
    · intro h
      cases h
    · rintro ⟨k, hk, -⟩
      simp at hk
  | cons x xs ih =>
    by_cases hx : p x = true
    · rw [List.find?_cons_of_pos _ hx]
      constructor
      · intro h
        obtain rfl : x = v := by injection h
        exact ⟨0, rfl, hx, by omega⟩
      · rintro ⟨k, hk, hv, hfirst⟩
        cases k with
        | zero =>
          simp only [List.get?_cons_zero, Option.some.injEq] at hk
          rw [hk]
        | succ k =>
          have := hfirst 0 (by omega) x rfl
          rw [hx] at this
          cases this
    · rw [List.find?_cons_of_neg _ hx]
      rw [ih]
      constructor
      · rintro ⟨k, hk, hv, hfirst⟩
        refine ⟨k + 1, by simpa using hk, hv, ?_⟩
        intro k' hk' v' hv'
        cases k' with
        | zero =>
          simp only [List.get?_cons_zero, Option.some.injEq] at hv'
          subst hv'
          exact eq_false_of_ne_true hx
        | succ k' =>
          exact hfirst k' (by omega) v' (by simpa using hv')
      · rintro ⟨k, hk, hv, hfirst⟩
        cases k with
        | zero =>
          simp only [List.get?_cons_zero, Option.some.injEq] at hk
          subst hk
          rw [hv] at hx
          cases hx rfl
        | succ k =>
          refine ⟨k, by simpa using hk, hv, ?_⟩
          intro k' hk' v' hv'
          exact hfirst (k' + 1) (by omega) v' (by simpa using hv')

/-- Claim C3: the existence probe returns a witness iff some vertex of the
hyperrectangle has every module phase within `r = ρ/2 + ε` (ε = 10⁻⁹) of a
lattice point; and the returned witness is the first such vertex in the
bitmask enumeration order (in particular a vertex of the hyperrectangle). -/
theorem claim_C3_existence_probe {modules : List GridModule} {n : ℕ}
    {x0 dims : List ℚ} {ρ : ℚ}
    (hinv : ∀ M ∈ modules, isLeftInverse M.inverseLatticeBasis M.latticeBasis)
    (hρ : 0 ≤ ρ) :
    ((tryFindGridCodeZero modules n x0 dims ρ).isSome ↔
      ∃ v ∈ hyperrectangleVertices n x0 dims, phasesWithin modules (ρ / 2 + epsSlack) v) ∧
    ∀ v, tryFindGridCodeZero modules n x0 dims ρ = some v →
      ∃ k : ℕ, (hyperrectangleVertices n x0 dims).get? k = some v ∧
        phasesWithin modules (ρ / 2 + epsSlack) v ∧
        ∀ k' < k, ∀ v', (hyperrectangleVertices n x0 dims).get? k' = some v' →
          ¬ phasesWithin modules (ρ / 2 + epsSlack) v' := by
  constructor
  · rw [tryFindGridCodeZero, List.find?_isSome]
    constructor
    · rintro ⟨v, hv, hz⟩
      exact ⟨v, hv, (vertexIsZero_iff hinv hρ).mp hz⟩
    · rintro ⟨v, hv, hz⟩
      exact ⟨v, hv, (vertexIsZero_iff hinv hρ).mpr hz⟩
  · intro v hv
    rw [tryFindGridCodeZero, find?_eq_some_iff_first] at hv
    obtain ⟨k, hk, hz, hfirst⟩ := hv
    refine ⟨k, hk, (vertexIsZero_iff hinv hρ).mp hz, ?_⟩
    intro k' hk' v' hv' hcontra
    have := hfirst k' hk' v' hv'
    rw [(vertexIsZero_iff hinv hρ).mpr hcontra] at this
    cases this

/-- Witness for C3 at the tangent module on `[1/2, 1]` with `ρ = 1`. -/
theorem claim_C3_witness :
    ((tryFindGridCodeZero [tangentModule] 1 [1 / 2] [1 / 2] 1).isSome ↔
      ∃ v ∈ hyperrectangleVertices 1 [1 / 2] [1 / 2],
        phasesWithin [tangentModule] (1 / 2 + epsSlack) v) ∧
    ∀ v, tryFindGridCodeZero [tangentModule] 1 [1 / 2] [1 / 2] 1 = some v →
      ∃ k : ℕ, (hyperrectangleVertices 1 [1 / 2] [1 / 2]).get? k = some v ∧
        phasesWithin [tangentModule] (1 / 2 + epsSlack) v ∧
        ∀ k' < k, ∀ v', (hyperrectangleVertices 1 [1 / 2] [1 / 2]).get? k' = some v' →
          ¬ phasesWithin [tangentModule] (1 / 2 + epsSlack) v' := by
  have hinv : ∀ M ∈ [tangentModule], isLeftInverse M.inverseLatticeBasis M.latticeBasis := by
    intro M hM
    simp only [List.mem_singleton] at hM
    subst hM
    simp only [isLeftInverse, mat2Mul, mat2Id, tangentModule]
    norm_num
  have h := @claim_C3_existence_probe [tangentModule] 1 [1 / 2] [1 / 2] 1 hinv (by norm_num)
  have hhalf : (1 : ℚ) / 2 = 1 / 2 := rfl
  constructor
  · exact h.1
  · exact h.2

/-! ### Claim C6: the scheduler slab state machine -/

/-- Claim C6 (counterexample): in the state `schedCexState` the scheduler is
about to dispatch the **positive** slab of axis 0 (`positiveExpand = true`,
`d = 0 < N - 1 = 1`).  The claim says that after dispatching the positive slab
the scheduler sets `expansionProgress[d] = G = 2` and steps `d → 1`; the code
instead leaves `expansionProgress = [1, 1]` and `d = 0`, merely flipping
`positiveExpand` (progress advances only after the negative slab). -/
theorem claim_C6_counterexample :
    schedCexState.positiveExpand = true ∧
    schedCexState.expandingDim = 0 ∧
    schedCexState.numDims = 2 ∧
    schedCexState.expansionRadiusGoal = 2 ∧
    (claimNextTask 0 schedCexState).expansionProgress.getD 0 0 = 1 ∧
    ((1 : ℚ) = 2 → False) ∧
    (claimNextTask 0 schedCexState).expandingDim = 0 ∧
    (claimNextTask 0 schedCexState).positiveExpand = false := by
  refine ⟨rfl, rfl, rfl, rfl, ?_, by norm_num, ?_, ?_⟩ <;>
    · simp only [claimNextTask, schedCexState]
      norm_num

/-- Claim C6 (amended): full characterization of `claimNextTask`.  The slab
assignment is as claimed (per-axis spans, final-axis positive half, expanding
axis override), but progress advances after the **negative** slab of axis `d`
(or immediately on the final axis, which only dispatches its positive slab):
when `positiveExpand ∧ d < N-1` the call only flips `positiveExpand` to false;
otherwise it sets `expansionProgress[d] = G`, steps `d → d+1`, and on overflow
commits `B ← G`, `G ← G·1.01`, `d ← 0`. -/
theorem claim_C6_amended {s : SchedulerState} {t : ℕ}
    (hd : s.expandingDim < s.numDims)
    (ht : t < s.threadQueryX0.length) (ht2 : t < s.threadQueryDims.length) :
    (∀ k < s.numDims, k ≠ s.expandingDim →
      ((claimNextTask t s).threadQueryDims.getD t []).getD k 0 =
        (if k + 1 = s.numDims then s.expansionProgress.getD k 0
          else 2 * s.expansionProgress.getD k 0) ∧
      ((claimNextTask t s).threadQueryX0.getD t []).getD k 0 =
        (if k + 1 = s.numDims then 0 else -(s.expansionProgress.getD k 0))) ∧
    ((claimNextTask t s).threadQueryDims.getD t []).getD s.expandingDim 0 =
      s.expansionRadiusGoal - s.baselineRadius ∧
    ((claimNextTask t s).threadQueryX0.getD t []).getD s.expandingDim 0 =
      (if s.positiveExpand then s.baselineRadius else -s.expansionRadiusGoal) ∧
    (claimNextTask t s).threadBaselineRadius =
      s.threadBaselineRadius.set t s.baselineRadius ∧
    (if s.positiveExpand ∧ s.expandingDim < s.numDims - 1 then
      (claimNextTask t s).positiveExpand = false ∧
      (claimNextTask t s).expansionProgress = s.expansionProgress ∧
      (claimNextTask t s).expandingDim = s.expandingDim ∧
      (claimNextTask t s).baselineRadius = s.baselineRadius ∧
      (claimNextTask t s).expansionRadiusGoal = s.expansionRadiusGoal
    else if s.expandingDim + 1 ≥ s.numDims then
      (claimNextTask t s).positiveExpand = true ∧
      (claimNextTask t s).expansionProgress =
        s.expansionProgress.set s.expandingDim s.expansionRadiusGoal ∧
      (claimNextTask t s).expandingDim = 0 ∧
      (claimNextTask t s).baselineRadius = s.expansionRadiusGoal ∧
      (claimNextTask t s).expansionRadiusGoal = s.expansionRadiusGoal * (101 / 100)
    else
      (claimNextTask t s).positiveExpand = true ∧
      (claimNextTask t s).expansionProgress =
        s.expansionProgress.set s.expandingDim s.expansionRadiusGoal ∧
      (claimNextTask t s).expandingDim = s.expandingDim + 1 ∧
      (claimNextTask t s).baselineRadius = s.baselineRadius ∧
      (claimNextTask t s).expansionRadiusGoal = s.expansionRadiusGoal) := by
  have hslabDims : (claimNextTask t s).threadQueryDims.getD t [] =
      ((List.range s.numDims).map fun iDim =>
        if iDim + 1 = s.numDims then s.expansionProgress.getD iDim 0
        else 2 * s.expansionProgress.getD iDim 0).set s.expandingDim
          (s.expansionRadiusGoal - s.baselineRadius) := by
    simp only [claimNextTask]
    split
    · exact getD_set_self (by simpa using ht2) _ _
    · split
      · exact getD_set_self (by simpa using ht2) _ _
      · exact getD_set_self (by simpa using ht2) _ _
  have hslabX0 : (claimNextTask t s).threadQueryX0.getD t [] =
      ((List.range s.numDims).map fun iDim =>
        if iDim + 1 = s.numDims then 0
        else -(s.expansionProgress.getD iDim 0)).set s.expandingDim
          (if s.positiveExpand then s.baselineRadius else -s.expansionRadiusGoal) := by
    simp only [claimNextTask]
    split
    · exact getD_set_self (by simpa using ht) _ _
    · split
      · exact getD_set_self (by simpa using ht) _ _
      · exact getD_set_self (by simpa using ht) _ _
  refine ⟨?_, ?_, ?_, ?_, ?_⟩
  · intro k hk hkd
    rw [hslabDims, hslabX0, getD_set_ne _ hkd, getD_set_ne _ hkd,
      getD_map_range _ hk, getD_map_range _ hk]
    exact ⟨rfl, rfl⟩
  · rw [hslabDims,
      getD_set_self (by simpa using hd) _ _]
  · rw [hslabX0,
      getD_set_self (by simpa using hd) _ _]
  · simp only [claimNextTask]
    split
    · rfl
    · split
      · rfl
      · rfl
  · by_cases hcase : s.positiveExpand ∧ s.expandingDim < s.numDims - 1
    · rw [if_pos hcase]
      simp only [claimNextTask, if_pos hcase]
      exact ⟨trivial, trivial, trivial, trivial, trivial⟩
    · rw [if_neg hcase]
      by_cases hroll : s.expandingDim + 1 ≥ s.numDims
      · rw [if_pos hroll]
        simp only [claimNextTask, if_neg hcase, if_pos hroll]
        exact ⟨trivial, trivial, trivial, trivial, trivial⟩
      · rw [if_neg hroll]
        simp only [claimNextTask, if_neg hcase, if_neg hroll]
        exact ⟨trivial, trivial, trivial, trivial, trivial⟩

/-- Witness for the amended C6 at `schedCexState` (positive slab of axis 0):
the dispatched slab is `x0 = [1, 0]`, `dims = [1, 1]` and only
`positiveExpand` changes. -/
theorem claim_C6_amended_witness :
    ((claimNextTask 0 schedCexState).threadQueryDims.getD 0 []).getD 1 0 = 1 ∧
    ((claimNextTask 0 schedCexState).threadQueryDims.getD 0 []).getD 0 0 = 1 ∧
    ((claimNextTask 0 schedCexState).threadQueryX0.getD 0 []).getD 0 0 = 1 ∧
    (claimNextTask 0 schedCexState).positiveExpand = false ∧
    (claimNextTask 0 schedCexState).expansionProgress = [1, 1] := by
  have h := claim_C6_amended (s := schedCexState) (t := 0)
    (by norm_num [schedCexState]) (by norm_num [schedCexState])
    (by norm_num [schedCexState])
  have hcase : schedCexState.positiveExpand ∧
      schedCexState.expandingDim < schedCexState.numDims - 1 := by
    norm_num [schedCexState]
  obtain ⟨hothers, hdd, hdx, -, hupd⟩ := h
  rw [if_pos hcase] at hupd
  have h1 := hothers 1 (by norm_num [schedCexState]) (by norm_num [schedCexState])
  refine ⟨?_, ?_, ?_, hupd.1, ?_⟩
  · simpa [schedCexState] using h1.1
  · simpa [schedCexState, show ((2 : ℚ) - 1) = 1 from by norm_num] using hdd
  · simpa [schedCexState] using hdx
  · simpa [schedCexState] using hupd.2.1

/-! ### Claim C7: witness recording -/

/-- Claim C7: `recordResult` always clears `continueExpansion`; it installs the
worker's baseline and point exactly when the worker's baseline is strictly
below the current best; in that case it forces `threadShouldContinue` to false
for every *other* worker whose baseline is at least the new best, and leaves
the flag unchanged for the recording worker and for workers probing a strictly
smaller baseline.  All other scheduler fields are untouched. -/
theorem claim_C7_recordResult (s : SchedulerState) (t : ℕ) (pt : List ℚ) :
    (recordResult t s pt).continueExpansion = false ∧
    (recordResult t s pt).baselineRadius = s.baselineRadius ∧
    (recordResult t s pt).expansionRadiusGoal = s.expansionRadiusGoal ∧
    (recordResult t s pt).threadBaselineRadius = s.threadBaselineRadius ∧
    (s.threadBaselineRadius.getD t 0 < s.foundPointBaselineRadius →
      (recordResult t s pt).foundPointBaselineRadius = s.threadBaselineRadius.getD t 0 ∧
      (recordResult t s pt).pointWithGridCodeZero = pt ∧
      (∀ j < s.threadShouldContinue.length, j ≠ t →
        s.threadBaselineRadius.getD t 0 ≤ s.threadBaselineRadius.getD j 0 →
        (recordResult t s pt).threadShouldContinue.getD j false = false) ∧
      (∀ j < s.threadShouldContinue.length,
        j = t ∨ s.threadBaselineRadius.getD j 0 < s.threadBaselineRadius.getD t 0 →
        (recordResult t s pt).threadShouldContinue.getD j false =
          s.threadShouldContinue.getD j false)) ∧
    (s.foundPointBaselineRadius ≤ s.threadBaselineRadius.getD t 0 →
      (recordResult t s pt).foundPointBaselineRadius = s.foundPointBaselineRadius ∧
      (recordResult t s pt).pointWithGridCodeZero = s.pointWithGridCodeZero ∧
      (recordResult t s pt).threadShouldContinue = s.threadShouldContinue) := by
  by_cases hlt : s.threadBaselineRadius.getD t 0 < s.foundPointBaselineRadius
  · simp only [recordResult, if_pos hlt]
    refine ⟨trivial, trivial, trivial, trivial, fun _ => ⟨trivial, trivial, ?_, ?_⟩,
      fun hge => absurd hlt (not_lt.mpr hge)⟩
    · intro j hj hjt hge
      rw [getD_mapIdx _ _ _ hj]
      by_cases hc : s.threadShouldContinue.getD j false = true
      · rw [if_pos ⟨hjt, hc, hge⟩]
      · rw [if_neg fun hcontra => hc hcontra.2.1]
        simp only [Bool.not_eq_true] at hc
        exact hc
    · intro j hj hcase
      rw [getD_mapIdx _ _ _ hj]
      rcases hcase with rfl | hlt2
      · exact if_neg fun hcontra => hcontra.1 rfl
      · exact if_neg fun hcontra => absurd hcontra.2.2 (not_le.mpr hlt2)
  · simp only [recordResult, if_neg hlt]
    exact ⟨trivial, trivial, trivial, trivial, fun h => absurd h hlt,
      fun _ => ⟨trivial, trivial, trivial⟩⟩

/-- Witness for C7 at a concrete two-worker state: worker 0 records a point
under baseline 1 while the best so far is `DBL_MAX`; worker 1 (baseline
`DBL_MAX` ≥ 1) is stopped. -/
theorem claim_C7_witness :
    (recordResult 0 { schedCexState with
        threadBaselineRadius := [1, DBL_MAX],
        threadShouldContinue := [true, true] } [9, 9]).continueExpansion = false ∧
    (recordResult 0 { schedCexState with
        threadBaselineRadius := [1, DBL_MAX],
        threadShouldContinue := [true, true] } [9, 9]).foundPointBaselineRadius = 1 ∧
    (recordResult 0 { schedCexState with
        threadBaselineRadius := [1, DBL_MAX],
        threadShouldContinue := [true, true] } [9, 9]).threadShouldContinue.getD 1 false
        = false ∧
    (recordResult 0 { schedCexState with
        threadBaselineRadius := [1, DBL_MAX],
        threadShouldContinue := [true, true] } [9, 9]).threadShouldContinue.getD 0 false
        = true := by
  have h := claim_C7_recordResult { schedCexState with
      threadBaselineRadius := [1, DBL_MAX],
      threadShouldContinue := [true, true] } 0 [9, 9]
  obtain ⟨hcont, -, -, -, hpos, -⟩ := h
  have hlt : ([1, DBL_MAX].getD 0 0 : ℚ) < DBL_MAX := by
    norm_num [DBL_MAX]
  obtain ⟨hfound, -, hclear, hkeep⟩ := hpos hlt
  refine ⟨hcont, by simpa using hfound, ?_, ?_⟩
  · have := hclear 1 (by norm_num) (by norm_num) (by norm_num [DBL_MAX])
    simpa using this
  · have := hkeep 0 (by norm_num) (Or.inl rfl)
    simpa using this

/-! ### Claim C8: the no-witness sentinel -/

/-- Claim C8 (counterexample): the scheduler initializes
`foundPointBaselineRadius` to `std::numeric_limits<double>::max()`, the largest
finite double — not `+∞`: the rational `DBL_MAX + 1` exceeds it. -/
theorem claim_C8_counterexample :
    (initialSchedulerState 2 1 1).foundPointBaselineRadius = DBL_MAX ∧
    ¬ ∀ q : ℚ, q ≤ (initialSchedulerState 2 1 1).foundPointBaselineRadius := by
  refine ⟨rfl, fun hall => ?_⟩
  have h := hall (DBL_MAX + 1)
  rw [show (initialSchedulerState 2 1 1).foundPointBaselineRadius = DBL_MAX from rfl] at h
  linarith

lemma claimNextTask_found_eq (t : ℕ) (s : SchedulerState) :
    (claimNextTask t s).foundPointBaselineRadius = s.foundPointBaselineRadius := by
  simp only [claimNextTask]
  split
  · rfl
  · split
    · rfl
    · rfl

/-- Claim C8 (amended): the no-witness sentinel is the largest finite double
`DBL_MAX = (2^53 - 1)·2^971` (what `std::numeric_limits<double>::max()`
denotes), not `+∞`: `foundPointBaselineRadius` is initialized to it, and any
run of scheduler operations in which no result is ever recorded (only
`claimNextTask` steps) leaves it equal to `DBL_MAX`. -/
theorem claim_C8_amended {numDims numThreads : ℕ} {icd : ℚ} (ops : List SchedOp)
    (hops : ∀ op ∈ ops, ∃ t, op = SchedOp.claim t) :
    (initialSchedulerState numDims numThreads icd).foundPointBaselineRadius = DBL_MAX ∧
    DBL_MAX = (2 ^ 53 - 1) * 2 ^ 971 ∧
    (runSched ops (initialSchedulerState numDims numThreads icd)).foundPointBaselineRadius
      = DBL_MAX := by
  refine ⟨rfl, rfl, ?_⟩
  suffices h : ∀ (l : List SchedOp) (s : SchedulerState),
      (∀ op ∈ l, ∃ t, op = SchedOp.claim t) →
      (runSched l s).foundPointBaselineRadius = s.foundPointBaselineRadius by
    exact h ops _ hops
  intro l
  induction l with
  | nil => intro s _; rfl
  | cons op rest ih =>
    intro s hl
    obtain ⟨t, rfl⟩ := hl op (List.mem_cons_self op rest)
    have hrest : ∀ op' ∈ rest, ∃ t', op' = SchedOp.claim t' :=
      fun op' hop' => hl op' (List.mem_cons_of_mem _ hop')
    show (runSched rest (schedStep (SchedOp.claim t) s)).foundPointBaselineRadius = _
    rw [ih _ hrest]
    exact claimNextTask_found_eq t s

/-- Witness for the amended C8: two dimensions, one worker, ignored center 1,
a single `claimNextTask` step. -/
theorem claim_C8_amended_witness :
    (initialSchedulerState 2 1 1).foundPointBaselineRadius = DBL_MAX ∧
    DBL_MAX = (2 ^ 53 - 1) * 2 ^ 971 ∧
    (runSched [SchedOp.claim 0] (initialSchedulerState 2 1 1)).foundPointBaselineRadius
      = DBL_MAX := by
  refine claim_C8_amended [SchedOp.claim 0] ?_
  intro op hop
  simp only [List.mem_singleton] at hop
  exact ⟨0, hop⟩

/-! ### Claim C9: cube monotonicity -/

lemma claimNextTask_mono {t : ℕ} {s : SchedulerState}
    (h0 : 0 ≤ s.baselineRadius) (hbg : s.baselineRadius ≤ s.expansionRadiusGoal) :
    s.baselineRadius ≤ (claimNextTask t s).baselineRadius ∧
    0 ≤ (claimNextTask t s).baselineRadius ∧
    (claimNextTask t s).baselineRadius ≤ (claimNextTask t s).expansionRadiusGoal := by
  simp only [claimNextTask]
  split
  · exact ⟨le_rfl, h0, hbg⟩
  · split
    · refine ⟨hbg, le_trans h0 hbg, ?_⟩
      show s.expansionRadiusGoal ≤ s.expansionRadiusGoal * (101 / 100)
      nlinarith
    · exact ⟨le_rfl, h0, hbg⟩

lemma recordResult_mono {t : ℕ} {s : SchedulerState} {pt : List ℚ} :
    (recordResult t s pt).baselineRadius = s.baselineRadius ∧
    (recordResult t s pt).expansionRadiusGoal = s.expansionRadiusGoal ∧
    (recordResult t s pt).foundPointBaselineRadius ≤ s.foundPointBaselineRadius := by
  by_cases hlt : s.threadBaselineRadius.getD t 0 < s.foundPointBaselineRadius
  · simp only [recordResult, if_pos hlt]
    exact ⟨trivial, trivial, le_of_lt hlt⟩
  · simp only [recordResult, if_neg hlt]
    exact ⟨trivial, trivial, le_rfl⟩

lemma runSched_mono {s : SchedulerState} (ops : List SchedOp)
    (h0 : 0 ≤ s.baselineRadius) (hbg : s.baselineRadius ≤ s.expansionRadiusGoal) :
    (0 ≤ (runSched ops s).baselineRadius ∧
      (runSched ops s).baselineRadius ≤ (runSched ops s).expansionRadiusGoal) ∧
    s.baselineRadius ≤ (runSched ops s).baselineRadius ∧
    (runSched ops s).foundPointBaselineRadius ≤ s.foundPointBaselineRadius := by
  induction ops generalizing s with
  | nil => exact ⟨⟨h0, hbg⟩, le_rfl, le_rfl⟩
  | cons op rest ih =>
    have hstep : (0 ≤ (schedStep op s).baselineRadius ∧
        (schedStep op s).baselineRadius ≤ (schedStep op s).expansionRadiusGoal) ∧
        s.baselineRadius ≤ (schedStep op s).baselineRadius ∧
        (schedStep op s).foundPointBaselineRadius ≤ s.foundPointBaselineRadius := by
      cases op with
      | claim t =>
        obtain ⟨hm, hz, hg⟩ := claimNextTask_mono (t := t) h0 hbg
        exact ⟨⟨hz, hg⟩, hm, le_of_eq (claimNextTask_found_eq t s)⟩
      | record t pt =>
        obtain ⟨hb, hg, hf⟩ := @recordResult_mono t s pt
        exact ⟨⟨hb ▸ h0, hb ▸ hg ▸ hbg⟩, le_of_eq hb.symm, hf⟩
    have hrest := ih hstep.1.1 hstep.1.2
    refine ⟨hrest.1, le_trans hstep.2.1 hrest.2.1, le_trans hrest.2.2 hstep.2.2⟩

/-- Claim C9: over any sequence of scheduler-state operations starting from the
initial state with `ignoredCenterDiameter ≥ 0`, `baselineRadius` is
monotonically non-decreasing and `foundPointBaselineRadius` monotonically
non-increasing. -/
theorem claim_C9_monotonicity {numDims numThreads : ℕ} {icd : ℚ} (hicd : 0 ≤ icd)
    (ops extra : List SchedOp) :
    (runSched ops (initialSchedulerState numDims numThreads icd)).baselineRadius ≤
      (runSched (ops ++ extra) (initialSchedulerState numDims numThreads icd)).baselineRadius ∧
    (runSched (ops ++ extra)
        (initialSchedulerState numDims numThreads icd)).foundPointBaselineRadius ≤
      (runSched ops (initialSchedulerState numDims numThreads icd)).foundPointBaselineRadius := by
  have h0 : 0 ≤ (initialSchedulerState numDims numThreads icd).baselineRadius := hicd
  have hbg : (initialSchedulerState numDims numThreads icd).baselineRadius ≤
      (initialSchedulerState numDims numThreads icd).expansionRadiusGoal := by
    show icd ≤ icd * 2
    linarith
  have h1 := runSched_mono ops h0 hbg
  have h2 := runSched_mono extra h1.1.1 h1.1.2
  have happ : runSched (ops ++ extra) (initialSchedulerState numDims numThreads icd) =
      runSched extra (runSched ops (initialSchedulerState numDims numThreads icd)) := by
    simp only [runSched, List.foldl_append]
  rw [happ]
  exact ⟨h2.2.1, h2.2.2⟩

/-- Witness for C9: one claim step from the initial state with
`ignoredCenterDiameter = 1`. -/
theorem claim_C9_witness :
    (runSched [] (initialSchedulerState 2 1 1)).baselineRadius ≤
      (runSched ([] ++ [SchedOp.claim 0]) (initialSchedulerState 2 1 1)).baselineRadius ∧
    (runSched ([] ++ [SchedOp.claim 0])
        (initialSchedulerState 2 1 1)).foundPointBaselineRadius ≤
      (runSched [] (initialSchedulerState 2 1 1)).foundPointBaselineRadius :=
  claim_C9_monotonicity (by norm_num) [] [SchedOp.claim 0]

/-! ### Claim C10: frame property of the recursive search -/

/-- The `SwapValueRAII` restores compose: whenever the helper returns (success,
failure, or cancellation), the `x0` and `dims` arrays hold their entry values. -/
lemma helper_frame {modules : List GridModule} {numDims : ℕ} {ρ : ℚ} {sc : Bool} :
    ∀ (fuel : ℕ) (x0 dims : List ℚ) (res : Option (List ℚ) × List ℚ × List ℚ),
      findGridCodeZeroHelper modules numDims ρ sc fuel x0 dims = some res →
      res.2.1 = x0 ∧ res.2.2 = dims := by
  intro fuel
  induction fuel with
  | zero =>
    intro x0 dims res h
    cases h
  | succ fuel ih =>
    intro x0 dims res h
    simp only [findGridCodeZeroHelper] at h
    split at h
    · cases h
      exact ⟨rfl, rfl⟩
    · split at h
      · cases h
        exact ⟨rfl, rfl⟩
      · split at h
        · cases h
          exact ⟨rfl, rfl⟩
        · split at h
          · cases h
          · next v x0r dimsr heq =>
            obtain ⟨hx, hd⟩ := ih _ _ _ heq
            dsimp only at hx hd
            cases h
            dsimp only
            refine ⟨hx, ?_⟩
            rw [hd, List.set_set, set_getD_self]
          · next x0r dimsr heq =>
            obtain ⟨hx, hd⟩ := ih _ _ _ heq
            split at h
            · cases h
            · next res2 x0rr dimsrr heq2 =>
              obtain ⟨hx2, hd2⟩ := ih _ _ _ heq2
              dsimp only at hx hd hx2 hd2
              cases h
              dsimp only
              constructor
              · rw [hx2, List.set_set, set_getD_self]
                exact hx
              · rw [hd2, hd, List.set_set, set_getD_self]

/-- Claim C10: on every `some` return of `findGridCodeZeroHelper` — success,
failure, or cancellation — the returned `x0` and `dims` arrays equal the entry
values: the temporary halving of `dims[w]` and shifting of `x0[w]` are always
undone by the scoped restores.  (The public `findGridCodeZero` passes the
helper value copies of the caller's vectors, so the caller's `x0`/`dims` are
never modified.) -/
theorem claim_C10_frame {modules : List GridModule} {numDims : ℕ} {ρ : ℚ} {sc : Bool}
    (fuel : ℕ) (x0 dims : List ℚ) (res : Option (List ℚ) × List ℚ × List ℚ)
    (h : findGridCodeZeroHelper modules numDims ρ sc fuel x0 dims = some res) :
    res.2.1 = x0 ∧ res.2.2 = dims :=
  helper_frame fuel x0 dims res h

/-- Witness for C10: the cancellation path (`shouldContinue = false`) at fuel 1
returns immediately with the arrays unchanged. -/
theorem claim_C10_witness :
    findGridCodeZeroHelper [] 2 1 false 1 [5, 6] [7, 8] =
      some (none, ([5, 6] : List ℚ), ([7, 8] : List ℚ)) ∧
    ((none, ([5, 6] : List ℚ), ([7, 8] : List ℚ)) :
        Option (List ℚ) × List ℚ × List ℚ).2.1 = [5, 6] ∧
    ((none, ([5, 6] : List ℚ), ([7, 8] : List ℚ)) :
        Option (List ℚ) × List ℚ × List ℚ).2.2 = [7, 8] := by
  have heval : findGridCodeZeroHelper [] 2 1 false 1 [5, 6] [7, 8] =
      some (none, ([5, 6] : List ℚ), ([7, 8] : List ℚ)) := by
    simp [findGridCodeZeroHelper]
  have h := claim_C10_frame 1 [5, 6] [7, 8] _ heval
  exact ⟨heval, h.1, h.2⟩

/-! ### Claim C2: total correctness of the branch-and-bound search -/

lemma foldl_max_max (l : List ℚ) : ∀ a b : ℚ, l.foldl max (max a b) = max a (l.foldl max b) := by
  induction l with
  | nil => intro a b; rfl
  | cons c cs ih =>
    intro a b
    show cs.foldl max (max (max a b) c) = max a (cs.foldl max (max b c))
    rw [max_assoc, ih]

lemma getD_mem : ∀ (l : List ℚ) (k : ℕ), k < l.length → l.getD k 0 ∈ l
  | x :: xs, 0, _ => List.mem_cons_self x xs
  | x :: xs, k + 1, h =>
    List.mem_cons_of_mem x (getD_mem xs k (by simpa using h))

lemma widestDimIndex_getD : ∀ (x : ℚ) (xs : List ℚ),
    (x :: xs).getD (widestDimIndex (x :: xs)) 0 = xs.foldl max x
  | x, [] => rfl
  | x, e :: rest => by
    have hfold : (e :: rest).foldl max x = max x (rest.foldl max e) := by
      show rest.foldl max (max x e) = _
      rw [foldl_max_max]
    show (x :: e :: rest).getD
        (if x < (e :: rest).foldl max e then widestDimIndex (e :: rest) + 1 else 0) 0 = _
    have hcond : (e :: rest).foldl max e = rest.foldl max e := by
      show rest.foldl max (max e e) = _
      rw [max_self]
    by_cases hx : x < (e :: rest).foldl max e
    · rw [if_pos hx]
      show (e :: rest).getD (widestDimIndex (e :: rest)) 0 = _
      rw [widestDimIndex_getD e rest, hfold]
      rw [hcond] at hx
      rw [max_eq_right (le_of_lt hx)]
    · rw [if_neg hx]
      rw [hcond] at hx
      show x = _
      rw [hfold, max_eq_left (not_lt.mp hx)]

lemma widestDimIndex_lt_length : ∀ (x : ℚ) (xs : List ℚ),
    widestDimIndex (x :: xs) < (x :: xs).length
  | x, [] => by simp [widestDimIndex]
  | x, e :: rest => by
    show (if x < (e :: rest).foldl max e then widestDimIndex (e :: rest) + 1 else 0) <
      (x :: e :: rest).length
    by_cases hx : x < (e :: rest).foldl max e
    · rw [if_pos hx]
      have := widestDimIndex_lt_length e rest
      simpa using this
    · rw [if_neg hx]
      simp

lemma widestDimIndex_is_max (x : ℚ) (xs : List ℚ) :
    ∀ k < (x :: xs).length, (x :: xs).getD k 0 ≤ (x :: xs).getD (widestDimIndex (x :: xs)) 0 := by
  intro k hk
  rw [widestDimIndex_getD]
  have hmem : (x :: xs).getD k 0 ∈ x :: xs := getD_mem _ k hk
  rcases List.mem_cons.mp hmem with heq | hmem
  · rw [heq]
    exact init_le_foldl_max xs x
  · exact mem_le_foldl_max hmem x

lemma pointInRect_half_lower {n : ℕ} {x0 dims : List ℚ} {w : ℕ}
    (hw : w < dims.length) (hd0 : 0 ≤ dims.getD w 0) {p : List ℚ}
    (hp : pointInRect n x0 (dims.set w (dims.getD w 0 / 2)) p) :
    pointInRect n x0 dims p := by
  obtain ⟨hlen, hb⟩ := hp
  refine ⟨hlen, fun i hi => ?_⟩
  obtain ⟨h1, h2⟩ := hb i hi
  by_cases hiw : i = w
  · subst hiw
    rw [getD_set_self hw] at h2
    exact ⟨h1, by linarith⟩
  · rw [getD_set_ne _ hiw] at h2
    exact ⟨h1, h2⟩

lemma pointInRect_half_upper {n : ℕ} {x0 dims : List ℚ} {w : ℕ}
    (hw : w < dims.length) (hwx : w < x0.length) (hd0 : 0 ≤ dims.getD w 0) {p : List ℚ}
    (hp : pointInRect n (x0.set w (x0.getD w 0 + dims.getD w 0 / 2))
      (dims.set w (dims.getD w 0 / 2)) p) :
    pointInRect n x0 dims p := by
  obtain ⟨hlen, hb⟩ := hp
  refine ⟨hlen, fun i hi => ?_⟩
  obtain ⟨h1, h2⟩ := hb i hi
  by_cases hiw : i = w
  · subst hiw
    rw [getD_set_self hwx] at h1 h2
    rw [getD_set_self hw] at h2
    constructor
    · linarith
    · linarith
  · rw [getD_set_ne _ hiw] at h1 h2
    rw [getD_set_ne _ hiw] at h2
    exact ⟨h1, h2⟩

lemma pointInRect_split {n : ℕ} {x0 dims : List ℚ} {w : ℕ}
    (hw : w < dims.length) (hwx : w < x0.length) {p : List ℚ}
    (hp : pointInRect n x0 dims p) :
    pointInRect n x0 (dims.set w (dims.getD w 0 / 2)) p ∨
      pointInRect n (x0.set w (x0.getD w 0 + dims.getD w 0 / 2))
        (dims.set w (dims.getD w 0 / 2)) p := by
  obtain ⟨hlen, hb⟩ := hp
  by_cases hcase : p.getD w 0 ≤ x0.getD w 0 + dims.getD w 0 / 2
  · left
    refine ⟨hlen, fun i hi => ?_⟩
    obtain ⟨h1, h2⟩ := hb i hi
    by_cases hiw : i = w
    · subst hiw
      rw [getD_set_self hw]
      exact ⟨h1, hcase⟩
    · rw [getD_set_ne _ hiw]
      exact ⟨h1, h2⟩
  · right
    refine ⟨hlen, fun i hi => ?_⟩
    obtain ⟨h1, h2⟩ := hb i hi
    by_cases hiw : i = w
    · subst hiw
      rw [getD_set_self hwx, getD_set_self hw]
      constructor
      · linarith [not_le.mp hcase]
      · linarith
    · rw [getD_set_ne _ hiw, getD_set_ne _ hiw]
      exact ⟨h1, h2⟩

lemma dotProd_abs_le {row x0 dims p : List ℚ} {n : ℕ} (hrow : row.length = n)
    (hp : pointInRect n x0 dims p) :
    |dotProd row p| ≤ rowAbsRange row x0 dims n := by
  obtain ⟨hplen, hpb⟩ := hp
  rw [dotProd_eq_sum hrow hplen, rowAbsRange]
  refine le_trans (Finset.abs_sum_le_sum_abs _ _) (Finset.sum_le_sum fun i hi => ?_)
  have hin := Finset.mem_range.mp hi
  obtain ⟨h1, h2⟩ := hpb i hin
  rw [abs_mul]
  refine mul_le_mul_of_nonneg_left ?_ (abs_nonneg _)
  rcases le_or_lt 0 (p.getD i 0) with hp0 | hp0
  · rw [abs_of_nonneg hp0]
    exact le_trans h2 (le_trans (le_abs_self _) (le_max_right _ _))
  · rw [abs_of_neg hp0]
    refine le_trans (le_trans (by linarith : -p.getD i 0 ≤ -x0.getD i 0) (neg_le_abs _))
      (le_max_left _ _)

lemma boundingBox_fst_fst (ps : List Vec2) :
    (boundingBox ps).1.1 = (ps.map Prod.fst).foldl min DBL_MAX := rfl

lemma boundingBox_fst_snd (ps : List Vec2) :
    (boundingBox ps).1.2 = (ps.map Prod.fst).foldl max DBL_LOWEST := rfl

lemma boundingBox_snd_fst (ps : List Vec2) :
    (boundingBox ps).2.1 = (ps.map Prod.snd).foldl min DBL_MAX := rfl

lemma boundingBox_snd_snd (ps : List Vec2) :
    (boundingBox ps).2.2 = (ps.map Prod.snd).foldl max DBL_LOWEST := rfl

/-- The bounding-box width of the vertex images along one row functional is at
most the coefficient-weighted total side length (provided the images stay in
double range, so that the `DBL_MAX`-seeded folds are the true extrema). -/
lemma bbox_width_le {row x0 dims : List ℚ} {n : ℕ} (hrow : row.length = n)
    (hdims0 : ∀ i < n, 0 ≤ dims.getD i 0)
    (hbound : ∀ v ∈ hyperrectangleVertices n x0 dims, |dotProd row v| ≤ DBL_MAX) :
    ((hyperrectangleVertices n x0 dims).map fun v => dotProd row v).foldl max DBL_LOWEST -
      ((hyperrectangleVertices n x0 dims).map fun v => dotProd row v).foldl min DBL_MAX ≤
      ∑ i ∈ Finset.range n, |row.getD i 0| * dims.getD i 0 := by
  set condMax := fun i => decide (0 < row.getD i 0 * dims.getD i 0) with hcM
  set condMin := fun i => decide (row.getD i 0 * dims.getD i 0 < 0) with hcm
  set vmax := vertexOf n x0 dims (chooseBits condMax n) with hvmaxd
  set vmin := vertexOf n x0 dims (chooseBits condMin n) with hvmind
  have hmaxmem : vmax ∈ hyperrectangleVertices n x0 dims :=
    vertexOf_mem _ _ _ (chooseBits_lt _ n)
  have hminmem : vmin ∈ hyperrectangleVertices n x0 dims :=
    vertexOf_mem _ _ _ (chooseBits_lt _ n)
  have hvrect : ∀ v ∈ hyperrectangleVertices n x0 dims, pointInRect n x0 dims v := by
    intro v hv
    obtain ⟨b, -, rfl⟩ := List.mem_map.mp hv
    exact vertexOf_pointInRect hdims0 b
  have hmaxle : ((hyperrectangleVertices n x0 dims).map fun v => dotProd row v).foldl max
      DBL_LOWEST ≤ dotProd row vmax := by
    refine foldl_max_le ?_ ?_
    · have := hbound vmax hmaxmem
      have h2 : -DBL_MAX ≤ dotProd row vmax := neg_le_of_abs_le this
      simpa [DBL_LOWEST] using h2
    · intro y hy
      obtain ⟨v, hv, rfl⟩ := List.mem_map.mp hy
      exact dotProd_le_choose_max hrow (hvrect v hv).1 (hvrect v hv).2
  have hminge : dotProd row vmin ≤
      ((hyperrectangleVertices n x0 dims).map fun v => dotProd row v).foldl min DBL_MAX := by
    refine le_foldl_min ?_ ?_
    · have := hbound vmin hminmem
      exact le_of_abs_le this
    · intro y hy
      obtain ⟨v, hv, rfl⟩ := List.mem_map.mp hy
      exact dotProd_choose_min_le hrow (hvrect v hv).1 (hvrect v hv).2
  have hdiff : dotProd row vmax - dotProd row vmin ≤
      ∑ i ∈ Finset.range n, |row.getD i 0| * dims.getD i 0 := by
    rw [dotProd_eq_sum hrow (vertexOf_length n x0 dims _),
      dotProd_eq_sum hrow (vertexOf_length n x0 dims _), ← Finset.sum_sub_distrib]
    refine Finset.sum_le_sum fun i hi => ?_
    have hin := Finset.mem_range.mp hi
    rw [vertexOf_getD x0 dims _ hin, vertexOf_getD x0 dims _ hin,
      chooseBits_testBit _ hin, chooseBits_testBit _ hin]
    have hd0 := hdims0 i hin
    simp only [hcM, hcm, decide_eq_true_eq]
    by_cases h1 : 0 < row.getD i 0 * dims.getD i 0
    · rw [if_pos h1, if_neg (by linarith)]
      have : 0 ≤ row.getD i 0 := by nlinarith
      rw [abs_of_nonneg this]
      ring_nf
      nlinarith
    · by_cases h2 : row.getD i 0 * dims.getD i 0 < 0
      · rw [if_neg h1, if_pos h2]
        have : row.getD i 0 ≤ 0 := by nlinarith
        rw [abs_of_nonpos this]
        ring_nf
        nlinarith
      · rw [if_neg h1, if_neg h2]
        have : 0 ≤ |row.getD i 0| * dims.getD i 0 := by positivity
        ring_nf
        nlinarith
  linarith

/-- Squared-distance triangle inequality for two bounds. -/
lemma dist_triangle_sq {a1 a2 b1 b2 r d : ℚ} (hr : 0 ≤ r) (hd : 0 ≤ d)
    (hA : a1 ^ 2 + a2 ^ 2 ≤ r ^ 2) (hB : b1 ^ 2 + b2 ^ 2 ≤ d ^ 2) :
    (a1 + b1) ^ 2 + (a2 + b2) ^ 2 ≤ (r + d) ^ 2 := by
  nlinarith [sq_nonneg (a1 * b2 - a2 * b1), sq_nonneg (a1 * b1 + a2 * b2 - r * d),
    mul_nonneg hr hd, sq_nonneg (a1 * b1 + a2 * b2), sq_nonneg (r * d)]

lemma dimCount_le_pow {δ x : ℚ} (hδ : 0 < δ) : x ≤ δ * 2 ^ dimCount δ x := by
  rcases le_or_lt x 0 with hx | hx
  · exact le_trans hx (by positivity)
  · have hc1 : (0 : ℤ) ≤ ⌈x / δ⌉ := le_of_lt (Int.ceil_pos.mpr (div_pos hx hδ))
    have h2 : ⌈x / δ⌉.toNat ≤ 2 ^ dimCount δ x := Nat.le_pow_clog (by norm_num) _
    have h3 : x / δ ≤ (2 : ℚ) ^ dimCount δ x := by
      calc x / δ ≤ (⌈x / δ⌉ : ℚ) := Int.le_ceil _
        _ = ((⌈x / δ⌉.toNat : ℕ) : ℚ) := by
          exact_mod_cast congrArg (fun z : ℤ => (z : ℚ)) (Int.toNat_of_nonneg hc1).symm
        _ ≤ ((2 ^ dimCount δ x : ℕ) : ℚ) := by exact_mod_cast h2
        _ = (2 : ℚ) ^ dimCount δ x := by push_cast; ring
    calc x = δ * (x / δ) := by field_simp
      _ ≤ δ * 2 ^ dimCount δ x := mul_le_mul_of_nonneg_left h3 (le_of_lt hδ)

lemma dimCount_pos {δ x : ℚ} (hδ : 0 < δ) (hx : δ < x) : 1 ≤ dimCount δ x := by
  have h1 : (1 : ℚ) < x / δ := (one_lt_div hδ).mpr hx
  have h2 : (1 : ℤ) < ⌈x / δ⌉ := by
    have := Int.lt_ceil (z := 1) (a := x / δ)
    exact this.mpr (by exact_mod_cast h1)
  have h3 : 1 < ⌈x / δ⌉.toNat := by omega
  exact Nat.clog_pos (by norm_num) h3

lemma dimCount_half_lt {δ x : ℚ} (hδ : 0 < δ) (hx : δ < x) :
    dimCount δ (x / 2) < dimCount δ x := by
  have hpos := dimCount_pos hδ hx
  have hle : dimCount δ (x / 2) ≤ dimCount δ x - 1 := by
    have hx2 : x / 2 / δ ≤ (2 : ℚ) ^ (dimCount δ x - 1) := by
      have h := dimCount_le_pow (x := x) hδ
      have h2 : (2 : ℚ) ^ dimCount δ x = 2 * 2 ^ (dimCount δ x - 1) := by
        rw [← pow_succ']
        congr 1
        omega
      rw [div_div, div_le_iff (by positivity)]
      rw [h2] at h
      linarith
    have hceil : ⌈x / 2 / δ⌉ ≤ (2 : ℤ) ^ (dimCount δ x - 1) := by
      refine Int.ceil_le.mpr ?_
      push_cast
      exact hx2
    have htn : ⌈x / 2 / δ⌉.toNat ≤ 2 ^ (dimCount δ x - 1) := by
      rcases le_or_lt ⌈x / 2 / δ⌉ 0 with hc | hc
      · rw [Int.toNat_of_nonpos hc]
        exact Nat.zero_le _
      · have h1 : (⌈x / 2 / δ⌉.toNat : ℤ) = ⌈x / 2 / δ⌉ := Int.toNat_of_nonneg (by omega)
        have h2 : (⌈x / 2 / δ⌉.toNat : ℤ) ≤ ((2 ^ (dimCount δ x - 1) : ℕ) : ℤ) := by
          rw [h1]
          calc ⌈x / 2 / δ⌉ ≤ (2 : ℤ) ^ (dimCount δ x - 1) := hceil
            _ = ((2 ^ (dimCount δ x - 1) : ℕ) : ℤ) := by push_cast; ring
        exact_mod_cast h2
    exact (Nat.le_pow_iff_clog_le (by norm_num)).mp htn
  omega

lemma rectMeasure_set_lt {δ : ℚ} {n : ℕ} {dims : List ℚ} {w : ℕ} (hw : w < n)
    (hwlen : w < dims.length) (hδ : 0 < δ) (hgt : δ < dims.getD w 0) :
    rectMeasure δ n (dims.set w (dims.getD w 0 / 2)) < rectMeasure δ n dims := by
  unfold rectMeasure
  rw [← Finset.sum_erase_add (Finset.range n) _ (Finset.mem_range.mpr hw),
    ← Finset.sum_erase_add (Finset.range n)
      (fun i => dimCount δ (dims.getD i 0)) (Finset.mem_range.mpr hw)]
  have hcongr : ∑ i ∈ (Finset.range n).erase w,
      dimCount δ ((dims.set w (dims.getD w 0 / 2)).getD i 0) =
      ∑ i ∈ (Finset.range n).erase w, dimCount δ (dims.getD i 0) := by
    refine Finset.sum_congr rfl fun i hi => ?_
    rw [getD_set_ne _ (Finset.ne_of_mem_erase hi)]
  rw [hcongr, getD_set_self hwlen]
  exact Nat.add_lt_add_left (dimCount_half_lt hδ hgt) _

lemma moduleKSum_le_kmax {modules : List GridModule} {M : GridModule} {n : ℕ}
    (hM : M ∈ modules) : moduleKSum M n ≤ modulesKMax modules n := by
  induction modules with
  | nil => cases hM
  | cons M' rest ih =>
    rcases List.mem_cons.mp hM with rfl | hM'
    · exact le_max_left _ _
    · exact le_trans (ih hM') (le_max_right _ _)

lemma modulesKMax_nonneg (modules : List GridModule) (n : ℕ) :
    0 ≤ modulesKMax modules n := by
  induction modules with
  | nil => exact le_rfl
  | cons M rest ih => exact le_trans ih (le_max_right _ _)

lemma leafDelta_pos (modules : List GridModule) (n : ℕ) : 0 < leafDelta modules n := by
  unfold leafDelta epsSlack
  have := modulesKMax_nonneg modules n
  positivity

lemma mem_zipWith {α β γ : Type} {f : α → β → γ} :
    ∀ {l1 : List α} {l2 : List β} {c : γ}, c ∈ List.zipWith f l1 l2 →
      ∃ a b, a ∈ l1 ∧ b ∈ l2 ∧ c = f a b
  | [], _, c, h => by simp at h
  | _ :: _, [], c, h => by simp at h
  | a :: as, b :: bs, c, h => by
    rw [List.zipWith_cons_cons] at h
    rcases List.mem_cons.mp h with rfl | h2
    · exact ⟨a, b, List.mem_cons_self _ _, List.mem_cons_self _ _, rfl⟩
    · obtain ⟨a', b', ha, hb, rfl⟩ := mem_zipWith h2
      exact ⟨a', b', List.mem_cons_of_mem _ ha, List.mem_cons_of_mem _ hb, rfl⟩

lemma invert2DMatrix_isLeftInverse {B : Mat2} (h : det2 B ≠ 0) :
    isLeftInverse (invert2DMatrix B) B := by
  obtain ⟨⟨a, b⟩, c, d⟩ := B
  simp only [det2] at h
  simp only [isLeftInverse, mat2Mul, invert2DMatrix, mat2Id, Prod.mk.injEq]
  refine ⟨⟨?_, ?_⟩, ?_, ?_⟩ <;> field_simp <;> ring

lemma rowAbsSum_nonneg (row : List ℚ) (n : ℕ) : 0 ≤ rowAbsSum row n := by
  unfold rowAbsSum
  exact Finset.sum_nonneg fun i _ => abs_nonneg _

set_option maxHeartbeats 1600000 in
/-- If every side of the hyperrectangle is at most `leafDelta` and the
disqualification probe fails, then the existence probe succeeds: the recursion
bottoms out. -/
lemma leaf_tryFind_of_small {modules : List GridModule} {n : ℕ}
    {x0 dims x0R dimsR : List ℚ} {ρ : ℚ}
    (hinv : ∀ M ∈ modules, isLeftInverse M.inverseLatticeBasis M.latticeBasis)
    (hρ : 0 < ρ)
    (hrows : ∀ M ∈ modules,
      M.domainToPlane.1.length = n ∧ M.domainToPlane.2.length = n)
    (hrange : ∀ M ∈ modules, rowRangeOK M.domainToPlane.1 x0R dimsR n ∧
      rowRangeOK M.domainToPlane.2 x0R dimsR n)
    (hsub : ∀ p, pointInRect n x0 dims p → pointInRect n x0R dimsR p)
    (hdims0 : ∀ i < n, 0 ≤ dims.getD i 0)
    (hsmall : ∀ i < n, dims.getD i 0 ≤ leafDelta modules n)
    (hdq : tryProveGridCodeZeroImpossible modules n x0 dims ρ = false) :
    (tryFindGridCodeZero modules n x0 dims ρ).isSome := by
  have hδpos := leafDelta_pos modules n
  set δ := leafDelta modules n with hδdef
  set v0 := vertexOf n x0 dims 0 with hv0def
  have hv0mem : v0 ∈ hyperrectangleVertices n x0 dims :=
    vertexOf_mem n x0 dims (by positivity)
  have hv0rect : pointInRect n x0 dims v0 := vertexOf_pointInRect hdims0 0
  rw [tryFindGridCodeZero, List.find?_isSome]
  refine ⟨v0, hv0mem, ?_⟩
  rw [vertexIsZero_iff hinv (le_of_lt hρ)]
  intro M hM
  -- This module found a collision in the DQ probe.
  have hdqM : moduleExcludesGridCodeZero M n x0 dims ρ = false := by
    simp only [tryProveGridCodeZeroImpossible, List.any_eq_false] at hdq
    simpa using hdq M hM
  simp only [moduleExcludesGridCodeZero, Bool.not_eq_false'] at hdqM
  obtain ⟨L, hLmem, hLcoll⟩ := List.any_eq_true.mp hdqM
  obtain ⟨⟨i, j, rfl⟩, -⟩ := latticePoints_sound hLmem
  refine ⟨i, j, ?_⟩
  set L := latticePointAt M.latticeBasis i j
  set bb := boundingBox
    ((hyperrectangleVertices n x0 dims).map (transformND M.domainToPlane)) with hbbdef
  -- the collision fact
  simp only [latticeCollision, decide_eq_true_eq] at hLcoll
  set q := nearestBBoxPoint bb.1.1 bb.1.2 bb.2.1 bb.2.2 L with hqdef
  set img0 := transformND M.domainToPlane v0 with himg0def
  obtain ⟨hb1, hb2, hb3, hb4⟩ :=
    image_mem_vertex_bbox (hrows M hM).1 (hrows M hM).2 hv0rect
  -- q is inside the bbox
  have hq1 : bb.1.1 ≤ q.1 := le_max_left _ _
  have hq2 : q.1 ≤ bb.1.2 := max_le (le_trans hb1 hb2) (min_le_right _ _)
  have hq3 : bb.2.1 ≤ q.2 := le_max_left _ _
  have hq4 : q.2 ≤ bb.2.2 := max_le (le_trans hb3 hb4) (min_le_right _ _)
  -- per-vertex double-range bound
  have hvbound : ∀ row : List ℚ, rowRangeOK row x0R dimsR n → row.length = n →
      ∀ v ∈ hyperrectangleVertices n x0 dims, |dotProd row v| ≤ DBL_MAX := by
    intro row hrok hrowlen v hv
    obtain ⟨b, -, rfl⟩ := List.mem_map.mp hv
    exact le_trans (dotProd_abs_le hrowlen (hsub _ (vertexOf_pointInRect hdims0 b))) hrok
  -- bbox widths
  have hfst : ((hyperrectangleVertices n x0 dims).map (transformND M.domainToPlane)).map
      Prod.fst = (hyperrectangleVertices n x0 dims).map fun v =>
        dotProd M.domainToPlane.1 v := by
    rw [List.map_map]
    rfl
  have hsnd : ((hyperrectangleVertices n x0 dims).map (transformND M.domainToPlane)).map
      Prod.snd = (hyperrectangleVertices n x0 dims).map fun v =>
        dotProd M.domainToPlane.2 v := by
    rw [List.map_map]
    rfl
  have hsumδ : ∀ row : List ℚ,
      ∑ k ∈ Finset.range n, |row.getD k 0| * dims.getD k 0 ≤ δ * rowAbsSum row n := by
    intro row
    rw [rowAbsSum, Finset.mul_sum]
    refine Finset.sum_le_sum fun k hk => ?_
    calc |row.getD k 0| * dims.getD k 0 ≤ |row.getD k 0| * δ :=
          mul_le_mul_of_nonneg_left (hsmall k (Finset.mem_range.mp hk)) (abs_nonneg _)
      _ = δ * |row.getD k 0| := mul_comm _ _
  have hwX : bb.1.2 - bb.1.1 ≤ δ * rowAbsSum M.domainToPlane.1 n := by
    refine le_trans ?_ (hsumδ M.domainToPlane.1)
    rw [hbbdef, boundingBox_fst_snd, boundingBox_fst_fst, hfst]
    exact bbox_width_le (hrows M hM).1 hdims0
      (hvbound _ (hrange M hM).1 (hrows M hM).1)
  have hwY : bb.2.2 - bb.2.1 ≤ δ * rowAbsSum M.domainToPlane.2 n := by
    refine le_trans ?_ (hsumδ M.domainToPlane.2)
    rw [hbbdef, boundingBox_snd_snd, boundingBox_snd_fst, hsnd]
    exact bbox_width_le (hrows M hM).2 hdims0
      (hvbound _ (hrange M hM).2 (hrows M hM).2)
  -- triangle inequality
  set d : ℚ := δ * moduleKSum M n with hddef
  have hK1 := rowAbsSum_nonneg M.domainToPlane.1 n
  have hK2 := rowAbsSum_nonneg M.domainToPlane.2 n
  have hd0 : 0 ≤ d := by
    rw [hddef, moduleKSum]
    positivity
  have hBsq : (q.1 - img0.1) ^ 2 + (q.2 - img0.2) ^ 2 ≤ d ^ 2 := by
    have habs1 : |q.1 - img0.1| ≤ δ * rowAbsSum M.domainToPlane.1 n := by
      rw [abs_le]
      constructor <;> linarith
    have habs2 : |q.2 - img0.2| ≤ δ * rowAbsSum M.domainToPlane.2 n := by
      rw [abs_le]
      constructor <;> linarith
    have hs1 : (q.1 - img0.1) ^ 2 ≤ (δ * rowAbsSum M.domainToPlane.1 n) ^ 2 :=
      sq_le_sq' (neg_le_of_abs_le habs1) (le_of_abs_le habs1)
    have hs2 : (q.2 - img0.2) ^ 2 ≤ (δ * rowAbsSum M.domainToPlane.2 n) ^ 2 :=
      sq_le_sq' (neg_le_of_abs_le habs2) (le_of_abs_le habs2)
    rw [hddef, moduleKSum]
    nlinarith [mul_nonneg (le_of_lt hδpos) hK1, mul_nonneg (le_of_lt hδpos) hK2]
  have htri : (L.1 - img0.1) ^ 2 + (L.2 - img0.2) ^ 2 ≤ (ρ / 2 + d) ^ 2 := by
    have h := @dist_triangle_sq (L.1 - q.1) (L.2 - q.2)
      (q.1 - img0.1) (q.2 - img0.2) (ρ / 2) d
      (by positivity) hd0 ?_ hBsq
    · convert h using 3 <;> ring
    · exact le_of_lt hLcoll
  have hdle : d ≤ epsSlack := by
    rw [hddef, hδdef, leafDelta]
    have hKM := moduleKSum_le_kmax (n := n) hM
    have hKMn := modulesKMax_nonneg modules n
    rw [div_mul_eq_mul_div, div_le_iff (by linarith)]
    have heps : (0 : ℚ) < epsSlack := by norm_num [epsSlack]
    nlinarith
  calc distSq L img0 = (L.1 - img0.1) ^ 2 + (L.2 - img0.2) ^ 2 := rfl
    _ ≤ (ρ / 2 + d) ^ 2 := htri
    _ ≤ (ρ / 2 + epsSlack) ^ 2 := by nlinarith

/-- The recursion terminates: with fuel exceeding the halving measure, the
helper never runs out. -/
lemma helper_some_of_fuel {modules : List GridModule} {n : ℕ} {x0R dimsR : List ℚ} {ρ : ℚ}
    (hinv : ∀ M ∈ modules, isLeftInverse M.inverseLatticeBasis M.latticeBasis)
    (hρ : 0 < ρ)
    (hrows : ∀ M ∈ modules,
      M.domainToPlane.1.length = n ∧ M.domainToPlane.2.length = n)
    (hrange : ∀ M ∈ modules, rowRangeOK M.domainToPlane.1 x0R dimsR n ∧
      rowRangeOK M.domainToPlane.2 x0R dimsR n) :
    ∀ (fuel : ℕ) (x0 dims : List ℚ), x0.length = n → dims.length = n →
      (∀ i < n, 0 < dims.getD i 0) →
      (∀ p, pointInRect n x0 dims p → pointInRect n x0R dimsR p) →
      rectMeasure (leafDelta modules n) n dims < fuel →
      findGridCodeZeroHelper modules n ρ true fuel x0 dims ≠ none := by
  intro fuel
  induction fuel with
  | zero =>
    intro x0 dims _ _ _ _ hμ
    omega
  | succ fuel ih =>
    intro x0 dims hx0len hdimslen hdims hsub hμ
    simp only [findGridCodeZeroHelper, Bool.not_true]
    rw [if_neg Bool.false_ne_true]
    split
    · simp
    · next htf =>
      split
      · simp
      · next hdq =>
        have hdqf : tryProveGridCodeZeroImpossible modules n x0 dims ρ = false :=
          Bool.not_eq_true _ ▸ eq_false_of_ne_true hdq
        -- not all sides are small, else the existence probe would have fired
        have hnotsmall : ¬ ∀ i < n, dims.getD i 0 ≤ leafDelta modules n := by
          intro hsmall
          have hfind := leaf_tryFind_of_small hinv hρ hrows hrange hsub
            (fun i hi => le_of_lt (hdims i hi)) hsmall hdqf
          rw [htf] at hfind
          simp at hfind
        push_neg at hnotsmall
        obtain ⟨i0, hi0, hbig⟩ := hnotsmall
        -- the widest dimension is larger than the leaf threshold
        obtain ⟨x, xs, rfl⟩ : ∃ x xs, dims = x :: xs := by
          cases dims with
          | nil => simp at hdimslen; omega
          | cons x xs => exact ⟨x, xs, rfl⟩
        have hwlt : widestDimIndex (x :: xs) < (x :: xs).length :=
          widestDimIndex_lt_length x xs
        have hwmax := widestDimIndex_is_max x xs i0 (by omega)
        set w := widestDimIndex (x :: xs) with hwdef
        set dims := x :: xs with hdimsdef
        have hwbig : leafDelta modules n < dims.getD w 0 := lt_of_not_le (by
          intro hle
          exact absurd (le_trans hwmax hle) (not_le.mpr hbig))
        have hwn : w < n := by omega
        have hd0pos : 0 < dims.getD w 0 := hdims w hwn
        -- invariants for the halved rectangle
        set dims1 := dims.set w (dims.getD w 0 / 2) with hdims1def
        have hdims1len : dims1.length = n := by
          rw [hdims1def, List.length_set]
          exact hdimslen
        have hdims1pos : ∀ i < n, 0 < dims1.getD i 0 := by
          intro i hi
          by_cases hiw : i = w
          · subst hiw
            rw [hdims1def, getD_set_self (by omega)]
            positivity
          · rw [hdims1def, getD_set_ne _ hiw]
            exact hdims i hi
        have hμ1 : rectMeasure (leafDelta modules n) n dims1 <
            rectMeasure (leafDelta modules n) n dims :=
          rectMeasure_set_lt hwn (by omega) (leafDelta_pos modules n) hwbig
        have hsub1 : ∀ p, pointInRect n x0 dims1 p → pointInRect n x0R dimsR p :=
          fun p hp => hsub p (pointInRect_half_lower (by omega) (le_of_lt hd0pos) hp)
        split
        · next heq1 =>
          exact absurd heq1 (ih x0 dims1 hx0len hdims1len hdims1pos hsub1 (by omega))
        · simp
        · next x0r dimsr heq1 =>
          obtain ⟨hx0r, hdimsr⟩ := helper_frame fuel x0 dims1 _ heq1
          dsimp only at hx0r hdimsr
          subst hx0r
          subst hdimsr
          split
          · next heq2 =>
            refine absurd heq2 (ih _ dims1 ?_ hdims1len hdims1pos ?_ (by omega))
            · rw [List.length_set]
              exact hx0len
            · intro p hp
              refine hsub p (pointInRect_half_upper (by omega) (by omega)
                (le_of_lt hd0pos) ?_)
              have hgd : dims1.getD w 0 = dims.getD w 0 / 2 := by
                rw [hdims1def, getD_set_self (by omega)]
              rw [hgd] at hp
              exact hp
          · simp

/-- If the helper returns a witness, some point of the hyperrectangle (the
witness vertex of some sub-hyperrectangle) has every phase within
`ρ/2 + ε`. -/
lemma helper_true_sound {modules : List GridModule} {n : ℕ} {ρ : ℚ}
    (hinv : ∀ M ∈ modules, isLeftInverse M.inverseLatticeBasis M.latticeBasis)
    (hρ : 0 ≤ ρ) :
    ∀ (fuel : ℕ) (x0 dims : List ℚ), x0.length = n → dims.length = n → 0 < n →
      (∀ i < n, 0 ≤ dims.getD i 0) →
      ∀ v x0r dimsr,
        findGridCodeZeroHelper modules n ρ true fuel x0 dims = some (some v, x0r, dimsr) →
        ∃ p, pointInRect n x0 dims p ∧ phasesWithin modules (ρ / 2 + epsSlack) p := by
  intro fuel
  induction fuel with
  | zero =>
    intro x0 dims _ _ _ _ v x0r dimsr h
    cases h
  | succ fuel ih =>
    intro x0 dims hx0len hdimslen hn hdims0 v x0r dimsr h
    simp only [findGridCodeZeroHelper, Bool.not_true] at h
    rw [if_neg Bool.false_ne_true] at h
    split at h
    · next v' htf =>
      simp only [Option.some.injEq, Prod.mk.injEq] at h
      obtain ⟨hv, -, -⟩ := h
      subst hv
      have hmem := List.mem_of_find?_eq_some htf
      have hpred := List.find?_some htf
      obtain ⟨b, -, rfl⟩ := List.mem_map.mp hmem
      exact ⟨vertexOf n x0 dims b, vertexOf_pointInRect hdims0 b,
        (vertexIsZero_iff hinv hρ).mp hpred⟩
    · split at h
      · simp at h
      · obtain ⟨x, xs, rfl⟩ : ∃ x xs, dims = x :: xs := by
          cases dims with
          | nil => simp at hdimslen; omega
          | cons x xs => exact ⟨x, xs, rfl⟩
        have hwlt : widestDimIndex (x :: xs) < (x :: xs).length :=
          widestDimIndex_lt_length x xs
        set w := widestDimIndex (x :: xs) with hwdef
        set dims := x :: xs with hdimsdef
        set dims1 := dims.set w (dims.getD w 0 / 2) with hdims1def
        have hdims1len : dims1.length = n := by
          rw [hdims1def, List.length_set]
          exact hdimslen
        have hdims1pos : ∀ i < n, 0 ≤ dims1.getD i 0 := by
          intro i hi
          by_cases hiw : i = w
          · subst hiw
            rw [hdims1def, getD_set_self (by omega)]
            have h0 := hdims0 _ hi
            linarith
          · rw [hdims1def, getD_set_ne _ hiw]
            exact hdims0 i hi
        split at h
        · cases h
        · next v' x0r' dimsr' heq1 =>
          simp only [Option.some.injEq, Prod.mk.injEq] at h
          obtain ⟨hv, -, -⟩ := h
          subst hv
          obtain ⟨p, hp, hph⟩ := ih x0 dims1 hx0len hdims1len hn hdims1pos _ _ _ heq1
          exact ⟨p, pointInRect_half_lower (by omega) (hdims0 w (by omega)) hp, hph⟩
        · next x0r' dimsr' heq1 =>
          obtain ⟨hx0r, hdimsr⟩ := helper_frame fuel x0 dims1 _ heq1
          dsimp only at hx0r hdimsr
          subst hx0r
          subst hdimsr
          split at h
          · cases h
          · next res2 x0rr dimsrr heq2 =>
            simp only [Option.some.injEq, Prod.mk.injEq] at h
            obtain ⟨hres2, -, -⟩ := h
            subst hres2
            have hgd : dims1.getD w 0 = dims.getD w 0 / 2 := by
              rw [hdims1def, getD_set_self (by omega)]
            rw [hgd] at heq2
            obtain ⟨p, hp, hph⟩ := ih _ dims1 (by rw [List.length_set]; exact hx0len)
              hdims1len hn hdims1pos _ _ _ heq2
            exact ⟨p, pointInRect_half_upper (by omega) (by omega)
              (hdims0 w (by omega)) hp, hph⟩

/-- If the helper returns "not found", no point of the hyperrectangle has all
its phases strictly within `ρ/2`. -/
lemma helper_false_sound {modules : List GridModule} {n : ℕ} {ρ : ℚ}
    (hinv : ∀ M ∈ modules, isLeftInverse M.inverseLatticeBasis M.latticeBasis)
    (hρ : 0 ≤ ρ)
    (hrows : ∀ M ∈ modules,
      M.domainToPlane.1.length = n ∧ M.domainToPlane.2.length = n) :
    ∀ (fuel : ℕ) (x0 dims : List ℚ), x0.length = n → dims.length = n → 0 < n →
      ∀ x0r dimsr,
        findGridCodeZeroHelper modules n ρ true fuel x0 dims = some (none, x0r, dimsr) →
        ∀ p, pointInRect n x0 dims p → ¬ phasesStrictlyWithin modules (ρ / 2) p := by
  intro fuel
  induction fuel with
  | zero =>
    intro x0 dims _ _ _ x0r dimsr h
    cases h
  | succ fuel ih =>
    intro x0 dims hx0len hdimslen hn x0r dimsr h p hp hstrict
    simp only [findGridCodeZeroHelper, Bool.not_true] at h
    rw [if_neg Bool.false_ne_true] at h
    split at h
    · simp at h
    · split at h
      · next hdq =>
        simp only [tryProveGridCodeZeroImpossible, List.any_eq_true] at hdq
        obtain ⟨M, hM, hex⟩ := hdq
        obtain ⟨i, j, hij⟩ := hstrict M hM
        have hs := moduleExcludes_sound (hinv M hM) hρ (hrows M hM).1 (hrows M hM).2
          hex p hp i j
        linarith
      · obtain ⟨x, xs, rfl⟩ : ∃ x xs, dims = x :: xs := by
          cases dims with
          | nil => simp at hdimslen; omega
          | cons x xs => exact ⟨x, xs, rfl⟩
        have hwlt : widestDimIndex (x :: xs) < (x :: xs).length :=
          widestDimIndex_lt_length x xs
        set w := widestDimIndex (x :: xs) with hwdef
        set dims := x :: xs with hdimsdef
        set dims1 := dims.set w (dims.getD w 0 / 2) with hdims1def
        have hdims1len : dims1.length = n := by
          rw [hdims1def, List.length_set]
          exact hdimslen
        split at h
        · cases h
        · next v' x0r' dimsr' heq1 =>
          simp at h
        · next x0r' dimsr' heq1 =>
          obtain ⟨hx0r, hdimsr⟩ := helper_frame fuel x0 dims1 _ heq1
          dsimp only at hx0r hdimsr
          split at h
          · cases h
          · next res2 x0rr dimsrr heq2 =>
            simp only [Option.some.injEq, Prod.mk.injEq] at h
            obtain ⟨hres2, -, -⟩ := h
            subst hres2
            rw [hx0r, hdimsr] at heq2
            have hgd : dims1.getD w 0 = dims.getD w 0 / 2 := by
              rw [hdims1def, getD_set_self (by omega)]
            rw [hgd] at heq2
            rcases pointInRect_split (w := w) (by omega) (by omega) hp with hlow | hup
            · exact ih x0 dims1 hx0len hdims1len hn _ _ heq1 p hlow hstrict
            · exact ih _ dims1 (by rw [List.length_set]; exact hx0len)
                hdims1len hn _ _ heq2 p hup hstrict

/-- Claim C2 (amended): total correctness of the branch-and-bound search, with
the two acceptance thresholds made explicit.  For inputs satisfying the
preconditions (non-singular lattice bases, two rows of length N per module,
positive side lengths, at least one dimension, images within double range):
the recursion terminates — there is a fuel bound under which `findGridCodeZero`
returns — and the result is `false` whenever no point of the hyperrectangle has
all its module phases within `ρ/2 + ε` of lattice points (ε = 10⁻⁹, the
existence-probe slack), and `true` whenever some point strictly inside the
hyperrectangle has all its phases **strictly** within `ρ/2`.  (The original
claim, stated for closed-readout grid-code-zero points, fails in both
directions at tangency/slack configurations.) -/
theorem claim_C2_amended {domainToPlaneByModule : List Mat2N}
    {latticeBasisByModule : List Mat2} {x0 dims : List ℚ} {ρ : ℚ}
    (hdet : ∀ B ∈ latticeBasisByModule, det2 B ≠ 0)
    (hrows : ∀ M ∈ domainToPlaneByModule,
      M.1.length = dims.length ∧ M.2.length = dims.length)
    (hx0len : x0.length = dims.length)
    (hn : 0 < dims.length)
    (hρ : 0 < ρ)
    (hdims : ∀ i < dims.length, 0 < dims.getD i 0)
    (hrange : ∀ M ∈ domainToPlaneByModule,
      rowRangeOK M.1 x0 dims dims.length ∧ rowRangeOK M.2 x0 dims dims.length) :
    ∃ (fuel : ℕ) (found : Bool) (w : Option (List ℚ)),
      findGridCodeZero domainToPlaneByModule latticeBasisByModule x0 dims ρ fuel
        = some (found, w) ∧
      ((¬ ∃ p, pointInRect dims.length x0 dims p ∧
          phasesWithin (buildModules domainToPlaneByModule latticeBasisByModule)
            (ρ / 2 + epsSlack) p) → found = false) ∧
      ((∃ p, p.length = dims.length ∧
          (∀ i < dims.length, x0.getD i 0 < p.getD i 0 ∧
            p.getD i 0 < x0.getD i 0 + dims.getD i 0) ∧
          phasesStrictlyWithin (buildModules domainToPlaneByModule latticeBasisByModule)
            (ρ / 2) p) → found = true) := by
  set n := dims.length with hndef
  set modules := buildModules domainToPlaneByModule latticeBasisByModule with hmod
  have hmodmem : ∀ M ∈ modules, M.domainToPlane ∈ domainToPlaneByModule ∧
      M.latticeBasis ∈ latticeBasisByModule ∧
      M.inverseLatticeBasis = invert2DMatrix M.latticeBasis := by
    intro M hM
    rw [hmod, buildModules] at hM
    obtain ⟨dp, lb, hdp, hlb, rfl⟩ := mem_zipWith hM
    exact ⟨hdp, hlb, rfl⟩
  have hinv : ∀ M ∈ modules, isLeftInverse M.inverseLatticeBasis M.latticeBasis := by
    intro M hM
    obtain ⟨-, hlb, hinvM⟩ := hmodmem M hM
    rw [hinvM]
    exact invert2DMatrix_isLeftInverse (hdet _ hlb)
  have hrows' : ∀ M ∈ modules,
      M.domainToPlane.1.length = n ∧ M.domainToPlane.2.length = n :=
    fun M hM => hrows _ (hmodmem M hM).1
  have hrange' : ∀ M ∈ modules, rowRangeOK M.domainToPlane.1 x0 dims n ∧
      rowRangeOK M.domainToPlane.2 x0 dims n :=
    fun M hM => hrange _ (hmodmem M hM).1
  set fuel := rectMeasure (leafDelta modules n) n dims + 1 with hfueldef
  have hterm := helper_some_of_fuel hinv hρ hrows' hrange' fuel x0 dims hx0len rfl hdims
    (fun p hp => hp) (by omega)
  rcases hres : findGridCodeZeroHelper modules n ρ true fuel x0 dims with _ | ⟨w, x0r, dimsr⟩
  · exact absurd hres hterm
  · refine ⟨fuel, w.isSome, w, ?_, ?_, ?_⟩
    · show (match findGridCodeZeroHelper modules n ρ true fuel x0 dims with
        | none => none
        | some (w, _, _) => some (w.isSome, w)) = some (w.isSome, w)
      rw [hres]
    · intro hnone
      cases w with
      | some v =>
        exfalso
        obtain ⟨p, hp, hph⟩ := helper_true_sound hinv (le_of_lt hρ) fuel x0 dims hx0len
          rfl hn (fun i hi => le_of_lt (hdims i hi)) v x0r dimsr hres
        exact hnone ⟨p, hp, hph⟩
      | none => rfl
    · intro hstrict
      cases w with
      | some v => rfl
      | none =>
        exfalso
        obtain ⟨p, hplen, hpin, hph⟩ := hstrict
        have hrect : pointInRect n x0 dims p :=
          ⟨hplen, fun i hi => ⟨le_of_lt (hpin i hi).1, le_of_lt (hpin i hi).2⟩⟩
        exact helper_false_sound hinv (le_of_lt hρ) hrows' fuel x0 dims hx0len rfl hn
          x0r dimsr hres p hrect hph

lemma buildModules_cexB :
    buildModules [([1], [0])] [((6, 3), (0, 1))] = [tangencyModule] := by
  simp only [buildModules, List.zipWith, invert2DMatrix, tangencyModule]
  norm_num

lemma tangencyModule_inv :
    isLeftInverse tangencyModule.inverseLatticeBasis tangencyModule.latticeBasis := by
  simp only [isLeftInverse, mat2Mul, mat2Id, tangencyModule]
  norm_num

/-- On the counterexample module, every lattice point is at squared distance at
least `5/4` from any image `(x, 0)` with `2x ∈ \x7b5, 7\x7d` — in particular
strictly beyond the slack radius `ρ/2 + ε`. -/
lemma cexB_far_core (c i j : ℤ) (hc : c = 5 ∨ c = 7) (x : ℚ) (hx : 2 * x = (c : ℚ)) :
    5 / 4 ≤ distSq (latticePointAt tangencyModule.latticeBasis i j) (x, 0) := by
  have hd : distSq (latticePointAt tangencyModule.latticeBasis i j) (x, 0)
      = (((6 * i + 3 * j : ℤ) : ℚ) - x) ^ 2 + (j : ℚ) ^ 2 := by
    simp only [distSq, latticePointAt, transform2D, tangencyModule]
    push_cast
    ring
  have hxval : x = (c : ℚ) / 2 := by linarith
  have hrw : (((6 * i + 3 * j : ℤ) : ℚ) - x) = ((12 * i + 6 * j - c : ℤ) : ℚ) / 2 := by
    rw [hxval]
    push_cast
    ring
  rw [hd, hrw]
  rcases eq_or_ne j 0 with hj | hj
  · subst hj
    set K : ℚ := ((12 * i + 6 * 0 - c : ℤ) : ℚ) with hK
    have h5 : 5 ≤ 12 * i + 6 * 0 - c ∨ 12 * i + 6 * 0 - c ≤ -5 := by omega
    have hkq : 25 ≤ K ^ 2 := by
      rcases h5 with h | h
      · have hq : (5 : ℚ) ≤ K := by rw [hK]; exact_mod_cast h
        nlinarith
      · have hq : K ≤ -5 := by rw [hK]; exact_mod_cast h
        nlinarith
    have h0 : (((0 : ℤ)) : ℚ) = 0 := by norm_num
    rw [h0]
    nlinarith [hkq]
  · set K : ℚ := ((12 * i + 6 * j - c : ℤ) : ℚ) with hK
    have h1 : 1 ≤ 12 * i + 6 * j - c ∨ 12 * i + 6 * j - c ≤ -1 := by omega
    have hkq : 1 ≤ K ^ 2 := by
      rcases h1 with h | h
      · have hq : (1 : ℚ) ≤ K := by rw [hK]; exact_mod_cast h
        nlinarith
      · have hq : K ≤ -1 := by rw [hK]; exact_mod_cast h
        nlinarith
    have hj2 : 1 ≤ j ∨ j ≤ -1 := by omega
    have hjq : 1 ≤ (j : ℚ) ^ 2 := by
      rcases hj2 with h | h
      · have hq : (1 : ℚ) ≤ (j : ℚ) := by exact_mod_cast h
        nlinarith
      · have hq : (j : ℚ) ≤ -1 := by exact_mod_cast h
        nlinarith
    nlinarith [hkq, hjq]

/-- Neither hyperrectangle vertex passes the existence probe's per-vertex test
in the counterexample configuration. -/
lemma cexB_vertexIsZero_false (x : ℚ) (hc : 2 * x = 5 ∨ 2 * x = 7) :
    vertexIsZero [tangencyModule] 2 [x] = false := by
  rw [Bool.eq_false_iff]
  intro htrue
  have hinv : ∀ M ∈ [tangencyModule], isLeftInverse M.inverseLatticeBasis M.latticeBasis := by
    intro M hM
    simp only [List.mem_singleton] at hM
    subst hM
    exact tangencyModule_inv
  have hph := (vertexIsZero_iff hinv (by norm_num : (0 : ℚ) ≤ 2)).mp htrue
  obtain ⟨i, j, hd⟩ := hph tangencyModule (List.mem_singleton.mpr rfl)
  have himg : transformND tangencyModule.domainToPlane [x] = (x, 0) := by
    simp only [transformND, dotProd, tangencyModule, List.zipWith, List.sum_cons,
      List.sum_nil]
    norm_num
  rw [himg] at hd
  have hfar : 5 / 4 ≤ distSq (latticePointAt tangencyModule.latticeBasis i j) (x, 0) := by
    rcases hc with h | h
    · exact cexB_far_core 5 i j (Or.inl rfl) x (by push_cast; linarith)
    · exact cexB_far_core 7 i j (Or.inr rfl) x (by push_cast; linarith)
  have hr : ((2 : ℚ) / 2 + epsSlack) ^ 2 < 5 / 4 := by norm_num [epsSlack]
  linarith

lemma cexB_vertices : hyperrectangleVertices 1 [(5 : ℚ) / 2] [1] = [[5 / 2], [7 / 2]] := by
  simp [hyperrectangleVertices, vertexOf, List.range_succ]
  norm_num

/-- The existence probe fails on the counterexample hyperrectangle. -/
lemma cexB_tryFind_none :
    tryFindGridCodeZero [tangencyModule] 1 [5 / 2] [1] 2 = none := by
  rw [tryFindGridCodeZero, cexB_vertices]
  refine List.find?_eq_none.mpr ?_
  intro v hv
  simp only [List.mem_cons, List.not_mem_nil, or_false] at hv
  rcases hv with rfl | rfl
  · simp [cexB_vertexIsZero_false (5 / 2) (Or.inl (by norm_num))]
  · simp [cexB_vertexIsZero_false (7 / 2) (Or.inr (by norm_num))]

/-- The disqualification probe accepts the counterexample hyperrectangle: the
two candidate lattice points `(3, ±1)` are at squared distance exactly `r² = 1`
from the image bounding box, and the collision test is strict. -/
lemma cexB_probe_eval :
    tryProveGridCodeZeroImpossible [tangencyModule] 1 [5 / 2] [1] 2 = true := by
  have himg : ([[(5 : ℚ) / 2], [7 / 2]] : List (List ℚ)).map
      (transformND tangencyModule.domainToPlane) = [(5 / 2, 0), (7 / 2, 0)] := by
    simp [transformND, dotProd, tangencyModule]
  have hbb : boundingBox [((5 : ℚ) / 2, (0 : ℚ)), (7 / 2, 0)] = ((5 / 2, 7 / 2), (0, 0)) := by
    simp only [boundingBox, List.map, List.foldl]
    norm_num [DBL_MAX, DBL_LOWEST]
  have hlp : latticePoints tangencyModule.latticeBasis tangencyModule.inverseLatticeBasis
      (5 / 2 - 2 / 2) (0 - 2 / 2) (7 / 2 - 5 / 2 + 2 * (2 / 2)) (0 - 0 + 2 * (2 / 2))
      = [(3, 1), (3, -1)] := by
    have hc : boundingBox ((rectCorners (5 / 2 - 2 / 2) (0 - 2 / 2)
        (7 / 2 - 5 / 2 + 2 * (2 / 2)) (0 - 0 + 2 * (2 / 2))).map
        (transform2D tangencyModule.inverseLatticeBasis))
        = ((-(1 / 4), 5 / 4), (-1, 1)) := by
      simp only [rectCorners, List.map, boundingBox, transform2D, tangencyModule, List.foldl]
      norm_num [DBL_MAX, DBL_LOWEST]
    simp only [latticePoints, hc]
    have h1 : ⌈(-(1 / 4) : ℚ)⌉ = 0 := by
      rw [Int.ceil_eq_iff]
      norm_num
    have h2 : ⌊(5 / 4 : ℚ)⌋ = 1 := by norm_num
    have h3 : ⌈(-1 : ℚ)⌉ = -1 := by
      rw [Int.ceil_eq_iff]
      norm_num
    have h4 : ⌊(1 : ℚ)⌋ = 1 := by norm_num
    rw [h1, h2, h3, h4]
    have hri : intRange 0 1 = [0, 1] := by
      have ht2 : ((1 : ℤ) + 1 - 0).toNat = 2 := by decide
      simp only [intRange, ht2]
      norm_num [List.range_succ]
    have hrj : intRange (-1) 1 = [-1, 0, 1] := by
      have ht3 : ((1 : ℤ) + 1 - (-1)).toNat = 3 := by decide
      simp only [intRange, ht3]
      norm_num [List.range_succ]
    rw [hri, hrj]
    simp only [List.flatMap, List.map, List.flatten, List.append_nil, List.filter]
    norm_num [inRect, transform2D, tangencyModule]
  simp only [tryProveGridCodeZeroImpossible, List.any, moduleExcludesGridCodeZero]
  rw [cexB_vertices, himg, hbb]
  dsimp only
  rw [hlp]
  simp only [List.any, latticeCollision, Bool.or_false]
  norm_num [distSq, nearestBBoxPoint]

/-- The public search decides the counterexample input already at fuel 1, with
result "no grid code zero". -/
lemma cexB_eval :
    findGridCodeZero [([1], [0])] [((6, 3), (0, 1))] [5 / 2] [1] 2 1
      = some (false, none) := by
  show (match findGridCodeZeroHelper (buildModules [([1], [0])] [((6, 3), (0, 1))])
      (List.length [(1 : ℚ)]) 2 true 1 [5 / 2] [1] with
    | none => none
    | some (w, _, _) => some (w.isSome, w)) = some (false, none)
  rw [buildModules_cexB]
  have hhelper : findGridCodeZeroHelper [tangencyModule] (List.length [(1 : ℚ)]) 2 true 1
      [5 / 2] [1] = some (none, [5 / 2], [1]) := by
    show (if !true then some (none, [5 / 2], [1])
      else
        match tryFindGridCodeZero [tangencyModule] (List.length [(1 : ℚ)]) [5 / 2] [1] 2 with
        | some v => some (some v, [5 / 2], [1])
        | none =>
          if tryProveGridCodeZeroImpossible [tangencyModule] (List.length [(1 : ℚ)])
              [5 / 2] [1] 2 then some (none, [5 / 2], [1])
          else
            let iWidestDim := widestDimIndex [(1 : ℚ)]
            let d0 := List.getD [(1 : ℚ)] iWidestDim 0
            match findGridCodeZeroHelper [tangencyModule] (List.length [(1 : ℚ)]) 2 true 0
                [5 / 2] (List.set [(1 : ℚ)] iWidestDim (d0 / 2)) with
            | none => none
            | some (some v, x0m, dimsm) =>
              some (some v, x0m, List.set dimsm iWidestDim d0)
            | some (none, x0m, dimsm) =>
              let x0w := List.getD x0m iWidestDim 0
              match findGridCodeZeroHelper [tangencyModule] (List.length [(1 : ℚ)]) 2 true 0
                  (List.set x0m iWidestDim (x0w + d0 / 2))
                  (List.set dimsm iWidestDim (d0 / 2)) with
              | none => none
              | some (w2, x0r, dimsr) =>
                some (w2, List.set x0r iWidestDim x0w, List.set dimsr iWidestDim d0))
      = some (none, [5 / 2], [1])
    have htf : tryFindGridCodeZero [tangencyModule] (List.length [(1 : ℚ)]) [5 / 2] [1] 2
        = none := cexB_tryFind_none
    have hpr : tryProveGridCodeZeroImpossible [tangencyModule] (List.length [(1 : ℚ)])
        [5 / 2] [1] 2 = true := cexB_probe_eval
    rw [htf, hpr]
    simp
  rw [hhelper]
  rfl

/-- Claim C2 (counterexample): on the hyperrectangle `[5/2, 7/2]` with the
counterexample module and `ρ = 2`, the point `[3]` lies strictly inside and is
a grid-code-zero point (its phase is at distance exactly `ρ/2` from lattice
point `(3, 1)`), yet `findGridCodeZero` decides the input (already at fuel 1)
and returns `false` with no witness — refuting the claimed "returns true for a
grid-code-zero point strictly inside". -/
theorem claim_C2_counterexample :
    findGridCodeZero [([1], [0])] [((6, 3), (0, 1))] [5 / 2] [1] 2 1
      = some (false, none) ∧
    (5 / 2 : ℚ) < 3 ∧ (3 : ℚ) < 5 / 2 + 1 ∧
    phasesWithin (buildModules [([1], [0])] [((6, 3), (0, 1))]) (2 / 2) [3] := by
  refine ⟨cexB_eval, by norm_num, by norm_num, ?_⟩
  rw [buildModules_cexB]
  intro M hM
  simp only [List.mem_singleton] at hM
  subst hM
  refine ⟨0, 1, ?_⟩
  simp only [distSq, latticePointAt, transform2D, transformND, dotProd, tangencyModule,
    List.zipWith, List.sum_cons, List.sum_nil]
  norm_num

/-- Witness for the amended C2 at a concrete input: one module mapping the
1-D domain onto the x-axis with the integer lattice, hyperrectangle
`[1/5, 3/10]`, `ρ = 1/2`.  All preconditions hold, so the search terminates
with a result constrained by the two amended directions. -/
theorem claim_C2_amended_witness :
    ∃ (fuel : ℕ) (found : Bool) (w : Option (List ℚ)),
      findGridCodeZero [([1], [0])] [((1, 0), (0, 1))] [1 / 5] [1 / 10] (1 / 2) fuel
        = some (found, w) ∧
      ((¬ ∃ p, pointInRect (List.length [(1 : ℚ) / 10]) [1 / 5] [1 / 10] p ∧
          phasesWithin (buildModules [([1], [0])] [((1, 0), (0, 1))])
            ((1 : ℚ) / 2 / 2 + epsSlack) p) → found = false) ∧
      ((∃ p, p.length = List.length [(1 : ℚ) / 10] ∧
          (∀ i < List.length [(1 : ℚ) / 10],
            List.getD [(1 : ℚ) / 5] i 0 < p.getD i 0 ∧
            p.getD i 0 < List.getD [(1 : ℚ) / 5] i 0 + List.getD [(1 : ℚ) / 10] i 0) ∧
          phasesStrictlyWithin (buildModules [([1], [0])] [((1, 0), (0, 1))])
            ((1 : ℚ) / 2 / 2) p) → found = true) := by
  apply claim_C2_amended
  · intro B hB
    simp only [List.mem_singleton] at hB
    subst hB
    norm_num [det2]
  · intro M hM
    simp only [List.mem_singleton] at hM
    subst hM
    exact ⟨rfl, rfl⟩
  · rfl
  · norm_num
  · norm_num
  · intro i hi
    simp only [List.length_cons, List.length_nil] at hi
    interval_cases i
    simp only [List.getD_cons_zero]
    norm_num
  · intro M hM
    simp only [List.mem_singleton] at hM
    subst hM
    constructor
    · simp only [rowRangeOK, rowAbsRange, List.length_cons, List.length_nil,
        Finset.sum_range_one, List.getD_cons_zero]
      norm_num [DBL_MAX, abs_of_pos, abs_of_nonneg]
    · simp only [rowRangeOK, rowAbsRange, List.length_cons, List.length_nil,
        Finset.sum_range_one, List.getD_cons_zero]
      norm_num [DBL_MAX, abs_of_pos, abs_of_nonneg]

end GridUniqueness
